import Mathlib

/-!
Verification development for the portfolio-sync repository.

The TypeScript sources (CLI aggregator `src/generate.ts` with `src/schema.ts`,
the web variant `web/src/lib/portfolio.ts`, and the local detectors
`src/detectors/*.ts` with the `update` command of `src/cli.ts`) are embedded
shallowly: pure functions become Lean functions over explicit inputs, I/O reads
(file contents, repository trees, wall clock) become parameters, and JavaScript
values are modelled with `Option` for possibly-`undefined` fields.  JavaScript
truthiness (empty strings are falsy, arrays and objects are truthy) is modelled
explicitly by the `js*` helpers.  String operations are re-implemented over
character lists so that every definition evaluates inside the kernel.
-/

namespace PortfolioSync

/-- ASCII lower-casing of one character (JavaScript `toLowerCase` on ASCII). -/
def lowerChar (c : Char) : Char :=
  if 'A' ≤ c ∧ c ≤ 'Z' then Char.ofNat (c.toNat + 32) else c

/-- ASCII upper-casing of one character (JavaScript `toUpperCase` on ASCII). -/
def upperChar (c : Char) : Char :=
  if 'a' ≤ c ∧ c ≤ 'z' then Char.ofNat (c.toNat - 32) else c

/-- Lower-case a string character by character. -/
def strLower (s : String) : String := String.mk (s.data.map lowerChar)

/-- Whitespace characters trimmed by JavaScript `String.prototype.trim`
(restricted to the ASCII whitespace that occurs in the inputs we model). -/
def isWs (c : Char) : Bool := c = ' ' ∨ c = '\t' ∨ c = '\n' ∨ c = '\r'

/-- JavaScript `trim`: drop whitespace from both ends. -/
def strTrim (s : String) : String :=
  String.mk (((s.data.dropWhile isWs).reverse.dropWhile isWs).reverse)

/-- Does the first character list begin with the second one? -/
def charsLead : List Char → List Char → Bool
  | _, [] => true
  | [], _ :: _ => false
  | c :: cs, p :: ps => decide (c = p) && charsLead cs ps

/-- JavaScript `startsWith`. -/
def strLead (s pat : String) : Bool := charsLead s.data pat.data

/-- JavaScript `endsWith`. -/
def strTrail (s pat : String) : Bool := charsLead s.data.reverse pat.data.reverse

/-- JavaScript `includes`: substring containment. -/
def strHas (s pat : String) : Bool :=
  go s.data
where
  go : List Char → Bool
  | [] => pat.data.isEmpty
  | c :: cs => charsLead (c :: cs) pat.data || go cs

/-- JavaScript `split` on a one-character separator (as used with `"\n"` and
`"."` in the sources): always returns at least one piece. -/
def splitChar (sep : Char) (s : String) : List String :=
  go s.data []
where
  go : List Char → List Char → List String
  | [], acc => [String.mk acc.reverse]
  | c :: cs, acc =>
    if c = sep then String.mk acc.reverse :: go cs [] else go cs (c :: acc)

/-- JavaScript `slice(0, n)` on the ASCII strings we model. -/
def strTake (s : String) (n : Nat) : String := String.mk (s.data.take n)

/-- Membership of a string in a list of strings, as a boolean. -/
def memB (x : String) (l : List String) : Bool := l.any (fun e => decide (e = x))

/-- Truthiness of a possibly-`undefined` JavaScript string: `undefined` and
`""` are falsy. -/
def jsStrTruthy : Option String → Bool
  | none => false
  | some s => !(decide (s = ""))

/-- JavaScript `x || d` for a possibly-`undefined` string `x` and a string
default `d`. -/
def jsStrOr (o : Option String) (d : String) : String :=
  match o with
  | some s => if s = "" then d else s
  | none => d

/-- JavaScript `x || undefined` for a possibly-`undefined` string `x`:
normalizes the falsy `""` to `undefined`. -/
def jsOptStr : Option String → Option String
  | some s => if s = "" then none else some s
  | none => none

/-- JavaScript `a || b` for two possibly-`undefined` strings. -/
def jsOrOptStr (a b : Option String) : Option String :=
  if jsStrTruthy a then a else b

/-! ### Lexicographic comparison of character lists

`String.prototype.localeCompare` on the `YYYY-MM` date keys used by the sort
comparator agrees with code-unit lexicographic comparison, which we implement
by structural recursion so that it evaluates in the kernel. -/

/-- Strict lexicographic order on character lists. -/
def charListLt : List Char → List Char → Bool
  | [], [] => false
  | [], _ :: _ => true
  | _ :: _, [] => false
  | a :: as, b :: bs => if a < b then true else if b < a then false else charListLt as bs

theorem charListLt_irrefl : ∀ l : List Char, charListLt l l = false
  | [] => rfl
  | a :: as => by simp [charListLt, lt_irrefl, charListLt_irrefl as]

theorem charListLt_trans :
    ∀ (a b c : List Char), charListLt a b = true → charListLt b c = true →
      charListLt a c = true
  | [], [], _, h1, _ => by simp [charListLt] at h1
  | [], _ :: _, [], _, h2 => by simp [charListLt] at h2
  | [], _ :: _, _ :: _, _, _ => by simp [charListLt]
  | _ :: _, [], _, h1, _ => by simp [charListLt] at h1
  | _ :: _, _ :: _, [], _, h2 => by simp [charListLt] at h2
  | a :: as, b :: bs, c :: cs, h1, h2 => by
    simp only [charListLt] at h1 h2 ⊢
    by_cases hab : a < b
    · by_cases hbc : b < c
      · simp [lt_trans hab hbc]
      · simp only [if_neg hbc] at h2
        by_cases hcb : c < b
        · simp [if_pos hcb] at h2
        · have hbe : b = c := le_antisymm (le_of_not_lt hcb) (le_of_not_lt hbc)
          subst hbe
          simp [hab]
    · simp only [if_neg hab] at h1
      by_cases hba : b < a
      · simp [if_pos hba] at h1
      · have hae : a = b := le_antisymm (le_of_not_lt hba) (le_of_not_lt hab)
        subst hae
        simp only [if_neg hab] at h1
        by_cases hac : a < c
        · simp [hac]
        · simp only [if_neg hac] at h2 ⊢
          by_cases hca : c < a
          · simp [if_pos hca] at h2
          · simp only [if_neg hca] at h2 ⊢
            exact charListLt_trans as bs cs h1 h2

theorem charListLt_eq_of_not :
    ∀ (a b : List Char), charListLt a b = false → charListLt b a = false → a = b
  | [], [], _, _ => rfl
  | [], _ :: _, h1, _ => by simp [charListLt] at h1
  | _ :: _, [], _, h2 => by simp [charListLt] at h2
  | a :: as, b :: bs, h1, h2 => by
    simp only [charListLt] at h1 h2
    by_cases hab : a < b
    · simp [if_pos hab] at h1
    · by_cases hba : b < a
      · simp [if_pos hba] at h2
      · have hae : a = b := le_antisymm (le_of_not_lt hba) (le_of_not_lt hab)
        subst hae
        simp only [if_neg hab, if_neg hba] at h1 h2
        rw [charListLt_eq_of_not as bs h1 h2]

theorem charListLt_asymm {a b : List Char} (h : charListLt a b = true) :
    charListLt b a = false := by
  cases hba : charListLt b a
  · rfl
  · have hc := charListLt_trans a b a h hba
    rw [charListLt_irrefl] at hc
    simp at hc

/-! ### JSON values

A shallow model of the documents handled by `JSON.parse` / `JSON.stringify`.
Serialization keeps only fields that are present (`JSON.stringify` skips
`undefined` values). -/

inductive Json where
  | null : Json
  | bool (b : Bool) : Json
  | num (n : Int) : Json
  | str (s : String) : Json
  | arr (elems : List Json) : Json
  | obj (fields : List (String × Json)) : Json

/-- Name of a JSON value's type, as zod reports it in error messages. -/
def jsonTypeName : Json → String
  | .null => "null"
  | .bool _ => "boolean"
  | .num _ => "number"
  | .str _ => "string"
  | .arr _ => "array"
  | .obj _ => "object"

/-- Property access on a JSON object field list. -/
def lookupField (fs : List (String × Json)) (k : String) : Option Json :=
  (fs.find? (fun p => decide (p.1 = k))).map (·.2)

/-! ### Data model (schema.ts / github.ts / portfolio.ts) -/

/-- `media.game` of the override schema. -/
structure GameMedia where
  type : String
  url : String
deriving Repr, DecidableEq

/-- `media` of the override schema. -/
structure Media where
  video : Option String := none
  website : Option String := none
  pdf : Option String := none
  game : Option GameMedia := none
deriving Repr, DecidableEq

/-- `links` of the override schema. -/
structure Links where
  liveDemo : Option String := none
  docs : Option String := none
deriving Repr, DecidableEq

/-- The manual override document `.portfolio.json` (schema.ts,
`portfolioConfigSchema`).  Every field except `name` is optional. -/
structure PortfolioConfig where
  name : String
  shortDescription : Option String := none
  description : Option String := none
  category : Option String := none
  technologies : Option (List String) := none
  status : Option String := none
  dateCompleted : Option String := none
  models : Option (List String) := none
  images : Option (List String) := none
  thumbnail : Option String := none
  media : Option Media := none
  links : Option Links := none
  featured : Option Bool := none
  exclude : Option Bool := none
deriving Repr, DecidableEq

/-- A parsed JavaScript `Date`: its epoch value (for comparisons) together
with the components read by `getFullYear` and `getMonth` (0-based month).
`Option JSDate` models a possibly-invalid date: `none` is an unparseable
timestamp (`new Date(s)` with `NaN` time), for which every `<` comparison is
false. -/
structure JSDate where
  epochMs : Int
  year : Nat
  month : Nat
deriving Repr, DecidableEq

/-- The repository descriptor supplied by the GitHub collaborators
(github.ts / portfolio.ts `RepoInfo`).  `pushedAt` is modelled already parsed. -/
structure RepoInfo where
  name : String
  fullName : String := ""
  description : Option String := none
  url : String := ""
  homepage : Option String := none
  topics : List String := []
  language : Option String := none
  archived : Bool := false
  pushedAt : Option JSDate := none
  defaultBranch : String := "main"
deriving Repr, DecidableEq

/-! ### Config Validator (schema.ts, `validateConfig`)

The zod schema `portfolioConfigSchema` is embedded field by field.  zod
validates every key of the object shape in declaration order and aggregates
all issues; each issue is rendered by the source as
`path.join(".") ++ ": " ++ message`.  Messages follow zod's defaults except
`dateCompleted`, whose message `"Must be YYYY-MM format"` is set by the
schema itself. -/

/-- The `^\d{4}-\d{2}$` test used for `dateCompleted`. -/
def isYearMonth (s : String) : Bool :=
  match s.data with
  | [y1, y2, y3, y4, dash, m1, m2] =>
    y1.isDigit && y2.isDigit && y3.isDigit && y4.isDigit &&
      decide (dash = '-') && m1.isDigit && m2.isDigit
  | _ => false

/-- Modelled from the spec: the schema delegates URL well-formedness for the
`media`/`links` fields (`z.string().url()`) to the zod library, whose code is
not part of this repository; the spec only requires such fields to "be
well-formed URLs if present".  We require a nonempty alphabetic scheme
followed by `://` and a nonempty remainder.  No claim exercises this check. -/
def isWellFormedUrl (s : String) : Bool :=
  go s.data []
where
  go : List Char → List Char → Bool
  | [], _ => false
  | c :: cs, acc =>
    if charsLead (c :: cs) [':', '/', '/'] then
      !acc.isEmpty && acc.all (·.isAlpha) && !(cs.drop 2).isEmpty
    else go cs (acc ++ [c])

/-- Result union of `validateConfig`:
`{success: true, data} | {success: false, errors}`. -/
inductive ValidationResult where
  | ok (data : PortfolioConfig)
  | err (errors : List String)
deriving Repr, DecidableEq

/-- `name`: required, non-empty string. -/
def checkRequiredString (fs : List (String × Json)) (k : String) :
    List String × String :=
  match lookupField fs k with
  | none => ([k ++ ": Required"], "")
  | some (.str s) =>
    if s = "" then ([k ++ ": String must contain at least 1 character(s)"], s)
    else ([], s)
  | some j => ([k ++ ": Expected string, received " ++ jsonTypeName j], "")

/-- An optional plain-string field; `path` is the rendered error path. -/
def checkOptString (fs : List (String × Json)) (k path : String) :
    List String × Option String :=
  match lookupField fs k with
  | none => ([], none)
  | some (.str s) => ([], some s)
  | some j => ([path ++ ": Expected string, received " ++ jsonTypeName j], none)

/-- An optional URL-shaped string field. -/
def checkOptUrl (fs : List (String × Json)) (k path : String) :
    List String × Option String :=
  match lookupField fs k with
  | none => ([], none)
  | some (.str s) =>
    if isWellFormedUrl s then ([], some s) else ([path ++ ": Invalid url"], none)
  | some j => ([path ++ ": Expected string, received " ++ jsonTypeName j], none)

/-- Element-wise check of an array-of-strings field. -/
def strListElemErrors (k : String) : Nat → List Json → List String
  | _, [] => []
  | i, .str _ :: rest => strListElemErrors k (i + 1) rest
  | i, e :: rest =>
    (k ++ "." ++ toString i ++ ": Expected string, received " ++ jsonTypeName e)
      :: strListElemErrors k (i + 1) rest

/-- An optional `z.array(z.string())` field. -/
def checkOptStrList (fs : List (String × Json)) (k : String) :
    List String × Option (List String) :=
  match lookupField fs k with
  | none => ([], none)
  | some (.arr es) =>
    let errs := strListElemErrors k 0 es
    if errs = [] then
      ([], some (es.map fun e => match e with | .str s => s | _ => ""))
    else (errs, none)
  | some j => ([k ++ ": Expected array, received " ++ jsonTypeName j], none)

/-- The `status` enum field. -/
def checkStatus (fs : List (String × Json)) : List String × Option String :=
  match lookupField fs "status" with
  | none => ([], none)
  | some (.str s) =>
    if s = "Completed" ∨ s = "In Progress" ∨ s = "Archived" then ([], some s)
    else
      (["status: Invalid enum value. Expected 'Completed' | 'In Progress' | 'Archived', received '"
          ++ s ++ "'"], none)
  | some j =>
    (["status: Expected 'Completed' | 'In Progress' | 'Archived', received "
        ++ jsonTypeName j], none)

/-- The `dateCompleted` field with the schema's own regex message. -/
def checkDateCompleted (fs : List (String × Json)) : List String × Option String :=
  match lookupField fs "dateCompleted" with
  | none => ([], none)
  | some (.str s) =>
    if isYearMonth s then ([], some s)
    else (["dateCompleted: Must be YYYY-MM format"], none)
  | some j =>
    (["dateCompleted: Expected string, received " ++ jsonTypeName j], none)

/-- An optional boolean field. -/
def checkOptBool (fs : List (String × Json)) (k : String) :
    List String × Option Bool :=
  match lookupField fs k with
  | none => ([], none)
  | some (.bool b) => ([], some b)
  | some j => ([k ++ ": Expected boolean, received " ++ jsonTypeName j], none)

/-- The nested `media.game` object. -/
def checkGame (mfs : List (String × Json)) : List String × Option GameMedia :=
  match lookupField mfs "game" with
  | none => ([], none)
  | some (.obj gfs) =>
    let tyRes : List String × String :=
      match lookupField gfs "type" with
      | none => (["media.game.type: Required"], "")
      | some (.str s) =>
        if s = "unity-webgl" ∨ s = "itch" then ([], s)
        else
          (["media.game.type: Invalid enum value. Expected 'unity-webgl' | 'itch', received '"
              ++ s ++ "'"], "")
      | some j =>
        (["media.game.type: Expected 'unity-webgl' | 'itch', received "
            ++ jsonTypeName j], "")
    let urlRes : List String × String :=
      match lookupField gfs "url" with
      | none => (["media.game.url: Required"], "")
      | some (.str s) =>
        if isWellFormedUrl s then ([], s) else (["media.game.url: Invalid url"], "")
      | some j =>
        (["media.game.url: Expected string, received " ++ jsonTypeName j], "")
    let errs := tyRes.1 ++ urlRes.1
    if errs = [] then ([], some ⟨tyRes.2, urlRes.2⟩) else (errs, none)
  | some j => (["media.game: Expected object, received " ++ jsonTypeName j], none)

/-- The nested `media` object. -/
def checkMedia (fs : List (String × Json)) : List String × Option Media :=
  match lookupField fs "media" with
  | none => ([], none)
  | some (.obj mfs) =>
    let v := checkOptUrl mfs "video" "media.video"
    let w := checkOptUrl mfs "website" "media.website"
    let p := checkOptString mfs "pdf" "media.pdf"
    let g := checkGame mfs
    let errs := v.1 ++ w.1 ++ p.1 ++ g.1
    if errs = [] then ([], some ⟨v.2, w.2, p.2, g.2⟩) else (errs, none)
  | some j => (["media: Expected object, received " ++ jsonTypeName j], none)

/-- The nested `links` object. -/
def checkLinks (fs : List (String × Json)) : List String × Option Links :=
  match lookupField fs "links" with
  | none => ([], none)
  | some (.obj lfs) =>
    let d := checkOptUrl lfs "liveDemo" "links.liveDemo"
    let o := checkOptUrl lfs "docs" "links.docs"
    let errs := d.1 ++ o.1
    if errs = [] then ([], some ⟨d.2, o.2⟩) else (errs, none)
  | some j => (["links: Expected object, received " ++ jsonTypeName j], none)

/-- `validateConfig` (schema.ts): returns the typed document, or the full list
of `field-path: message` errors in schema declaration order.  Unknown extra
keys are ignored (zod strips them). -/
def validateConfig (j : Json) : ValidationResult :=
  match j with
  | .obj fs =>
    let nameR := checkRequiredString fs "name"
    let shortR := checkOptString fs "shortDescription" "shortDescription"
    let descR := checkOptString fs "description" "description"
    let catR := checkOptString fs "category" "category"
    let techR := checkOptStrList fs "technologies"
    let statusR := checkStatus fs
    let dateR := checkDateCompleted fs
    let modelsR := checkOptStrList fs "models"
    let imagesR := checkOptStrList fs "images"
    let thumbR := checkOptString fs "thumbnail" "thumbnail"
    let mediaR := checkMedia fs
    let linksR := checkLinks fs
    let featR := checkOptBool fs "featured"
    let exclR := checkOptBool fs "exclude"
    let errs := nameR.1 ++ shortR.1 ++ descR.1 ++ catR.1 ++ techR.1 ++ statusR.1
      ++ dateR.1 ++ modelsR.1 ++ imagesR.1 ++ thumbR.1 ++ mediaR.1 ++ linksR.1
      ++ featR.1 ++ exclR.1
    if errs = [] then
      .ok { name := nameR.2, shortDescription := shortR.2, description := descR.2,
            category := catR.2, technologies := techR.2, status := statusR.2,
            dateCompleted := dateR.2, models := modelsR.2, images := imagesR.2,
            thumbnail := thumbR.2, media := mediaR.2, links := linksR.2,
            featured := featR.2, exclude := exclR.2 }
    else .err errs
  | _ => .err [": Expected object, received " ++ jsonTypeName j]

/-! ### CLI aggregator (src/generate.ts) -/

/-- Extension sets and asset directories of generate.ts (lines 41-43). -/
def MODEL_EXTS : List String := [".stl", ".gltf", ".glb", ".obj", ".fbx", ".3mf"]

def IMAGE_EXTS : List String := [".png", ".jpg", ".jpeg", ".gif", ".webp", ".svg"]

def IMAGE_DIRS : List String := ["docs/", "assets/", "images/", "screenshots/", "media/"]

/-- The topic-to-technology lookup table of `inferTechFromLanguage`
(identical to `TOPIC_MAP` of the web variant). -/
def topicMap : List (String × String) :=
  [("react", "React"), ("nextjs", "Next.js"), ("vue", "Vue"), ("angular", "Angular"),
   ("svelte", "Svelte"), ("typescript", "TypeScript"), ("python", "Python"),
   ("rust", "Rust"), ("go", "Go"), ("machine-learning", "Machine Learning"),
   ("three-js", "Three.js"), ("threejs", "Three.js"), ("tailwindcss", "Tailwind CSS"),
   ("docker", "Docker"), ("kubernetes", "Kubernetes"), ("graphql", "GraphQL"),
   ("tensorflow", "TensorFlow"), ("pytorch", "PyTorch")]

/-- Property read `topicMap[topic]` (absent key is `undefined`). -/
def lookupStr (m : List (String × String)) (k : String) : Option String :=
  (m.find? (fun p => decide (p.1 = k))).map (·.2)

/-- `[...new Set(l)]`: deduplication keeping the first occurrence order. -/
def dedup (l : List String) : List String :=
  go l []
where
  go : List String → List String → List String
  | [], seen => seen.reverse
  | x :: xs, seen => if memB x seen then go xs seen else go xs (x :: seen)

/-- `inferTechFromLanguage` (generate.ts lines 45-63): the language (when
truthy) followed by topic-mapped labels, deduplicated. -/
def inferTechFromLanguage (lang : Option String) (topics : List String) :
    List String :=
  let base := match lang with
    | some l => if l = "" then [] else [l]
    | none => []
  dedup (base ++ topics.filterMap (fun t => lookupStr topicMap t))

/-- `inferCategoryFromTopics` (generate.ts lines 65-92): an ordered,
first-match decision list over topics, then a language fallback. -/
def inferCategoryFromTopics (topics : List String) (lang : Option String) :
    String :=
  let has := fun s => memB s topics
  if has "game" || has "gamedev" || has "unity" || has "unreal" then
    "Game Development"
  else if has "machine-learning" || has "deep-learning" || has "ai" then
    "Machine Learning"
  else if has "robotics" || has "arduino" || has "embedded" then "Robotics"
  else if has "three-js" || has "threejs" || has "webgl" || has "3d" then "Web 3D"
  else if has "react" || has "vue" || has "angular" || has "nextjs" || has "webapp" then
    "Web App"
  else if has "api" || has "backend" || has "server" then "Backend/API"
  else if has "mobile" || has "react-native" || has "flutter" then "Mobile App"
  else if has "cli" || has "tool" then "CLI Tool"
  else match lang with
    | some "C#" => "Game Development"
    | some "Rust" => "Systems Programming"
    | some "Go" => "Backend/API"
    | some "Python" => "Python"
    | _ => "Software"

/-- `inferStatus` (generate.ts lines 94-100).  `oneYearAgoMs` is the epoch
value of `new Date()` shifted back one year; an unparseable `pushedAt`
(`none`) makes the JavaScript `<` comparison false, yielding `"Completed"`. -/
def inferStatus (repo : RepoInfo) (oneYearAgoMs : Int) : String :=
  if repo.archived then "Archived"
  else match repo.pushedAt with
    | none => "Completed"
    | some d => if d.epochMs < oneYearAgoMs then "Archived" else "Completed"

/-- `String(n).padStart(2, "0")` for the month number. -/
def pad2 (n : Nat) : String := if n < 10 then "0" ++ toString n else toString n

/-- `toYearMonth` (generate.ts lines 102-106): `""` for an invalid date,
otherwise `YYYY-MM`. -/
def toYearMonth (d : Option JSDate) : String :=
  match d with
  | none => ""
  | some d => toString d.year ++ "-" ++ pad2 (d.month + 1)

/-- Result of `findAssetsInTree`. -/
structure AssetScan where
  models : List String
  images : List String
deriving Repr, DecidableEq

/-- `"." + file.split(".").pop()?.toLowerCase()`. -/
def extAfterLastDot (file : String) : String :=
  "." ++ strLower ((splitChar '.' file).getLastD "")

/-- Model classification of one path in `findAssetsInTree`. -/
def isModelPath (file : String) : Bool := memB (extAfterLastDot file) MODEL_EXTS

/-- Image classification of one path in `findAssetsInTree`: image extension
and top-level asset directory. -/
def isImagePath (file : String) : Bool :=
  memB (extAfterLastDot file) IMAGE_EXTS && IMAGE_DIRS.any (fun d => strLead file d)

/-- `findAssetsInTree` (generate.ts lines 108-124): one pass over the file
listing, accumulating models and images in order. -/
def findAssetsInTree : List String → AssetScan
  | [] => ⟨[], []⟩
  | f :: fs =>
    let rest := findAssetsInTree fs
    ⟨(if isModelPath f then [f] else []) ++ rest.models,
     (if isImagePath f then [f] else []) ++ rest.images⟩

/-- `\w` of JavaScript regexes. -/
def isWordChar (c : Char) : Bool := c.isAlphanum || decide (c = '_')

/-- `repo.name.replace(/[-_]/g, " ").replace(/\b\w/g, c => c.toUpperCase())`. -/
def cleanRepoName (s : String) : String :=
  let replaced := s.data.map (fun c => if c = '-' ∨ c = '_' then ' ' else c)
  String.mk (go replaced false)
where
  go : List Char → Bool → List Char
  | [], _ => []
  | c :: cs, prevWord =>
    (if isWordChar c && !prevWord then upperChar c else c) :: go cs (isWordChar c)

/-- The inline README paragraph collector of the CLI `processRepo`
(generate.ts lines 158-172): skips blank/`[![`/`<` lines, flips `pastTitle`
on headings (breaking on a second heading once content was gathered), and
stops after three collected lines. -/
def cliReadmeParagraphs : List String → Bool → List String → List String
  | [], _, acc => acc.reverse
  | line :: ls, pastTitle, acc =>
    let trimmed := strTrim line
    if strLead trimmed "#" then
      if pastTitle && !acc.isEmpty then acc.reverse
      else cliReadmeParagraphs ls true acc
    else if decide (trimmed = "") || strLead trimmed "[![" || strLead trimmed "<" then
      cliReadmeParagraphs ls pastTitle acc
    else
      let acc2 := if pastTitle then trimmed :: acc else acc
      if acc2.length ≥ 3 then acc2.reverse
      else cliReadmeParagraphs ls pastTitle acc2

/-- The regex match `readme.match(/^[^.!?]+[.!?]/)`: the prefix up to and
including the first sentence terminator, or no match when the text starts
with a terminator or contains none. -/
def firstSentenceMatch (s : String) : Option String :=
  go s.data 0
where
  go : List Char → Nat → Option String
  | [], _ => none
  | c :: cs, i =>
    if c = '.' ∨ c = '!' ∨ c = '?' then
      if i = 0 then none else some (String.mk (s.data.take (i + 1)))
    else go cs (i + 1)

/-- Description and short description of the CLI auto-detect path
(generate.ts lines 154-184), given `repo.description` and the raw README. -/
def cliDescriptions (repoDesc : Option String) (readmeRaw : Option String) :
    Option String × Option String :=
  let description0 := jsOptStr repoDesc
  let short0 := description0
  match readmeRaw with
  | none => (description0, short0)
  | some raw =>
    if raw = "" then (description0, short0)
    else
      let paragraphs := cliReadmeParagraphs (splitChar '\n' raw) false []
      if paragraphs.isEmpty then (description0, short0)
      else
        let readme := String.intercalate " " paragraphs
        let description := match description0 with
          | none => some readme
          | some d => if readme.length > d.length then some readme else some d
        let short := match short0 with
          | some s => some s
          | none => some (match firstSentenceMatch readme with
              | some m => strTrim m
              | none => strTake readme 120)
        (description, short)

/-- One finalized entry of the CLI pipeline (generate.ts `PortfolioEntry`).
The override path spreads the whole validated config into the entry, so the
`exclude` flag is carried along. -/
structure CliEntry where
  name : String
  shortDescription : Option String := none
  description : Option String := none
  category : Option String := none
  technologies : Option (List String) := none
  status : Option String := none
  dateCompleted : Option String := none
  models : Option (List String) := none
  images : Option (List String) := none
  thumbnail : Option String := none
  media : Option Media := none
  links : Option Links := none
  featured : Option Bool := none
  exclude : Option Bool := none
  github : String := ""
deriving Repr, DecidableEq

/-- The override path of the CLI `processRepo` (generate.ts lines 137-145):
`{...result.data, github, technologies: data.technologies || infer,
category: data.category || infer, status: data.status || infer}`. -/
def cliConfigEntry (repo : RepoInfo) (cfg : PortfolioConfig) (oneYearAgoMs : Int) :
    CliEntry :=
  { name := cfg.name
    shortDescription := cfg.shortDescription
    description := cfg.description
    category := some (jsStrOr cfg.category (inferCategoryFromTopics repo.topics repo.language))
    technologies := some (cfg.technologies.getD (inferTechFromLanguage repo.language repo.topics))
    status := some (jsStrOr cfg.status (inferStatus repo oneYearAgoMs))
    dateCompleted := cfg.dateCompleted
    models := cfg.models
    images := cfg.images
    thumbnail := cfg.thumbnail
    media := cfg.media
    links := cfg.links
    featured := cfg.featured
    exclude := cfg.exclude
    github := repo.url }

/-- The auto-detect path of the CLI `processRepo` (generate.ts lines 152-212). -/
def cliAutoEntry (repo : RepoInfo) (readmeRaw : Option String) (tree : List String)
    (oneYearAgoMs : Int) : CliEntry :=
  let ds := cliDescriptions repo.description readmeRaw
  let assets := findAssetsInTree tree
  let base : CliEntry :=
    { name := cleanRepoName repo.name
      shortDescription := ds.2
      description := ds.1
      category := some (inferCategoryFromTopics repo.topics repo.language)
      technologies := some (inferTechFromLanguage repo.language repo.topics)
      status := some (inferStatus repo oneYearAgoMs)
      dateCompleted := some (toYearMonth repo.pushedAt)
      github := repo.url }
  let base := if assets.models.isEmpty then base else { base with models := some assets.models }
  let base := if assets.images.isEmpty then base else { base with images := some assets.images }
  match repo.homepage with
  | some h => if h = "" then base else { base with links := some { liveDemo := some h } }
  | none => base

/-- The CLI `processRepo` (generate.ts lines 126-213).  A present override
document is validated; on success the override path runs, otherwise auto
detection.  An unparseable `.portfolio.json` (the `JSON.parse` catch) is
modelled by `configRaw = none`. -/
def cliProcessRepo (repo : RepoInfo) (configRaw : Option Json)
    (readmeRaw : Option String) (tree : List String) (oneYearAgoMs : Int) :
    CliEntry :=
  match configRaw with
  | some j =>
    match validateConfig j with
    | .ok cfg => cliConfigEntry repo cfg oneYearAgoMs
    | .err _ => cliAutoEntry repo readmeRaw tree oneYearAgoMs
  | none => cliAutoEntry repo readmeRaw tree oneYearAgoMs

/-! ### Serialization of entries

`JSON.stringify` emits exactly the fields that are present (it skips
`undefined` values); we model the serialized entry as its list of present
fields.  Key order follows the `PortfolioEntry` interface declaration; no
claim depends on key order. -/

/-- A field that is present only when the value is. -/
def optField (k : String) (v : Option Json) : List (String × Json) :=
  match v with
  | none => []
  | some j => [(k, j)]

def gameToJson (g : GameMedia) : Json :=
  Json.obj [("type", Json.str g.type), ("url", Json.str g.url)]

def mediaToJson (m : Media) : Json :=
  Json.obj (optField "video" (m.video.map Json.str)
    ++ optField "website" (m.website.map Json.str)
    ++ optField "pdf" (m.pdf.map Json.str)
    ++ optField "game" (m.game.map gameToJson))

def linksToJson (l : Links) : Json :=
  Json.obj (optField "liveDemo" (l.liveDemo.map Json.str)
    ++ optField "docs" (l.docs.map Json.str))

/-- The present fields of a serialized CLI entry. -/
def cliEntryFields (e : CliEntry) : List (String × Json) :=
  [("name", Json.str e.name)]
  ++ optField "shortDescription" (e.shortDescription.map Json.str)
  ++ optField "description" (e.description.map Json.str)
  ++ optField "category" (e.category.map Json.str)
  ++ optField "technologies" (e.technologies.map (fun ts => Json.arr (ts.map Json.str)))
  ++ optField "status" (e.status.map Json.str)
  ++ optField "dateCompleted" (e.dateCompleted.map Json.str)
  ++ optField "models" (e.models.map (fun ms => Json.arr (ms.map Json.str)))
  ++ optField "images" (e.images.map (fun imgs => Json.arr (imgs.map Json.str)))
  ++ optField "thumbnail" (e.thumbnail.map Json.str)
  ++ optField "media" (e.media.map mediaToJson)
  ++ optField "links" (e.links.map linksToJson)
  ++ optField "featured" (e.featured.map Json.bool)
  ++ optField "exclude" (e.exclude.map Json.bool)
  ++ [("github", Json.str e.github)]

def cliEntryToJson (e : CliEntry) : Json := Json.obj (cliEntryFields e)

/-- The JSON document `{ "projects": [...] }` written by the CLI `json`
format (generate.ts line 288). -/
def cliToJsonDoc (entries : List CliEntry) : Json :=
  Json.obj [("projects", Json.arr (entries.map cliEntryToJson))]

/-- A quoted, truthiness-guarded YAML field line. -/
def yamlOptQuoted (label : String) (v : Option String) : List String :=
  match v with
  | some s => if s = "" then [] else ["    " ++ label ++ ": \"" ++ s ++ "\""]
  | none => []

/-- An unquoted, truthiness-guarded YAML field line. -/
def yamlOptPlain (label : String) (v : Option String) : List String :=
  match v with
  | some s => if s = "" then [] else ["    " ++ label ++ ": " ++ s]
  | none => []

/-- The per-entry lines of `toYaml` (generate.ts lines 215-242). -/
def cliEntryYamlLines (e : CliEntry) : List String :=
  ["  - name: \"" ++ e.name ++ "\""]
  ++ yamlOptQuoted "shortDescription" e.shortDescription
  ++ yamlOptQuoted "description" e.description
  ++ yamlOptPlain "category" e.category
  ++ (match e.technologies with
      | some ts =>
        if ts.isEmpty then []
        else ["    technologies: [" ++ String.intercalate ", " ts ++ "]"]
      | none => [])
  ++ yamlOptPlain "status" e.status
  ++ yamlOptPlain "dateCompleted" e.dateCompleted
  ++ ["    github: " ++ e.github]
  ++ (if e.featured = some true then ["    featured: true"] else [])
  ++ (match e.models with
      | some ms =>
        if ms.isEmpty then [] else "    models:" :: ms.map (fun m => "      - " ++ m)
      | none => [])
  ++ (match e.images with
      | some imgs =>
        if imgs.isEmpty then [] else "    images:" :: imgs.map (fun i => "      - " ++ i)
      | none => [])
  ++ (match e.links with
      | some l =>
        match l.liveDemo with
        | some v => if v = "" then [] else ["    liveDemo: " ++ v]
        | none => []
      | none => [])
  ++ (match e.media with
      | some m =>
        match m.video with
        | some v => if v = "" then [] else ["    video: " ++ v]
        | none => []
      | none => [])
  ++ [""]

/-- `toYaml` (generate.ts): hand-built line emission joined with newlines. -/
def cliToYaml (entries : List CliEntry) : String :=
  String.intercalate "\n" ("projects:" :: entries.flatMap cliEntryYamlLines)

/-- Insertion-ordered grouping used by `toMarkdown` (a `Map` keyed by
category, in first-seen order). -/
def pushCategory (acc : List (String × List CliEntry)) (cat : String)
    (e : CliEntry) : List (String × List CliEntry) :=
  match acc with
  | [] => [(cat, [e])]
  | (c, es) :: rest =>
    if c = cat then (c, es ++ [e]) :: rest else (c, es) :: pushCategory rest cat e

def groupByCategory (entries : List CliEntry) : List (String × List CliEntry) :=
  entries.foldl (fun acc e => pushCategory acc (jsStrOr e.category "Other") e) []

/-- The per-entry lines of `toMarkdown` (generate.ts lines 244-278). -/
def cliEntryMdLines (p : CliEntry) : List String :=
  ["### " ++ p.name ++ (if p.featured = some true then " ⭐" else "") ++ "\n"]
  ++ (match p.shortDescription with
      | some s => if s = "" then [] else [s ++ "\n"]
      | none => [])
  ++ (match p.technologies with
      | some ts =>
        if ts.isEmpty then [] else ["- **Tech:** " ++ String.intercalate ", " ts]
      | none => [])
  ++ yamlStyleMd "- **Status:** " p.status
  ++ yamlStyleMd "- **Date:** " p.dateCompleted
  ++ ["- **GitHub:** " ++ p.github]
  ++ (match p.links with
      | some l =>
        match l.liveDemo with
        | some v => if v = "" then [] else ["- **Live:** " ++ v]
        | none => []
      | none => [])
  ++ (match p.media with
      | some m =>
        match m.video with
        | some v => if v = "" then [] else ["- **Video:** " ++ v]
        | none => []
      | none => [])
  ++ (match p.models with
      | some ms =>
        if ms.isEmpty then []
        else ["- **3D Models:** " ++ toString ms.length ++ " file(s)"]
      | none => [])
  ++ (match p.images with
      | some imgs =>
        if imgs.isEmpty then []
        else ["- **Images:** " ++ toString imgs.length ++ " file(s)"]
      | none => [])
  ++ (match p.description with
      | some d =>
        if d = "" then [] else if p.shortDescription = some d then [] else ["\n" ++ d]
      | none => [])
  ++ [""]
where
  yamlStyleMd (label : String) (v : Option String) : List String :=
    match v with
    | some s => if s = "" then [] else [label ++ s]
    | none => []

/-- `toMarkdown` (generate.ts): a count header, then one heading per
category in insertion order with the entries beneath it. -/
def cliToMarkdown (entries : List CliEntry) : String :=
  String.intercalate "\n"
    (("# Portfolio — " ++ toString entries.length ++ " projects\n")
      :: (groupByCategory entries).flatMap
          (fun g => ("## " ++ g.1 ++ "\n") :: g.2.flatMap cliEntryMdLines))

/-! ### The pre-format sort

Both the CLI (generate.ts lines 337-342) and the web scanner
(web page component, `startScan`) sort with the identical comparator
`(a, b) => featured-first, then (b.dateCompleted || "").localeCompare(a.dateCompleted || "")`.
`Array.prototype.sort` is stable per the ECMAScript specification, which we
model with `List.mergeSort` over `comparator ≤ 0`. -/

/-- The comparator of the source, returning the sign as an `Int`. -/
def jsSortCmp {α : Type} (feat : α → Bool) (key : α → String) (a b : α) : Int :=
  if feat a && !feat b then -1
  else if !feat a && feat b then 1
  else if charListLt (key b).data (key a).data then -1
  else if charListLt (key a).data (key b).data then 1
  else 0

/-- `a` sorts no later than `b`: the comparator is nonpositive. -/
def jsSortLe {α : Type} (feat : α → Bool) (key : α → String) (a b : α) : Bool :=
  decide (jsSortCmp feat key a b ≤ 0)

/-- The stable sort `entries.sort(comparator)`. -/
def jsStableSort {α : Type} (feat : α → Bool) (key : α → String) (l : List α) :
    List α :=
  l.mergeSort (jsSortLe feat key)

/-- `featured` truthiness of a CLI entry. -/
def cliFeatured (e : CliEntry) : Bool := decide (e.featured = some true)

/-- `e.dateCompleted || ""` as a sort key. -/
def cliDateKey (e : CliEntry) : String := jsStrOr e.dateCompleted ""

/-- The CLI pre-format sort. -/
def cliSortEntries (l : List CliEntry) : List CliEntry :=
  jsStableSort cliFeatured cliDateKey l

/-- The data fetched for one repository, as consumed by `processRepo`. -/
structure RepoFetch where
  repo : RepoInfo
  config : Option Json := none
  readme : Option String := none
  tree : List String := []

/-- The entry list built by `generate` (generate.ts lines 298-342): filter by
the caller-supplied exclude set and leading-dot names, process every
repository, then sort.  (The per-repository try/catch never fires in the
model, where `processRepo` is total.) -/
def cliGenerateEntries (inputs : List RepoFetch) (excludeNames : List String)
    (oneYearAgoMs : Int) : List CliEntry :=
  let filtered := inputs.filter
    (fun q => !memB q.repo.name excludeNames && !strLead q.repo.name ".")
  let entries := filtered.map
    (fun q => cliProcessRepo q.repo q.config q.readme q.tree oneYearAgoMs)
  cliSortEntries entries

/-! ### Web variant (web/src/lib/portfolio.ts) -/

/-- `inferTech` (portfolio.ts lines 44-51): same table as the CLI. -/
def webInferTech (lang : Option String) (topics : List String) : List String :=
  let base := match lang with
    | some l => if l = "" then [] else [l]
    | none => []
  dedup (base ++ topics.filterMap (fun t => lookupStr topicMap t))

/-- `inferCategory` (portfolio.ts lines 53-68): like the CLI list but without
the `unreal` and `webapp` topics. -/
def webInferCategory (topics : List String) (lang : Option String) : String :=
  let has := fun s => memB s topics
  if has "game" || has "gamedev" || has "unity" then "Game Development"
  else if has "machine-learning" || has "deep-learning" || has "ai" then
    "Machine Learning"
  else if has "robotics" || has "arduino" || has "embedded" then "Robotics"
  else if has "three-js" || has "threejs" || has "webgl" || has "3d" then "Web 3D"
  else if has "react" || has "vue" || has "angular" || has "nextjs" then "Web App"
  else if has "api" || has "backend" || has "server" then "Backend/API"
  else if has "mobile" || has "react-native" || has "flutter" then "Mobile App"
  else if has "cli" || has "tool" then "CLI Tool"
  else match lang with
    | some "C#" => "Game Development"
    | some "Rust" => "Systems Programming"
    | some "Go" => "Backend/API"
    | some "Python" => "Python"
    | _ => "Software"

/-- `inferStatus` (portfolio.ts lines 70-76): identical logic to the CLI. -/
def webInferStatus (repo : RepoInfo) (oneYearAgoMs : Int) : String :=
  if repo.archived then "Archived"
  else match repo.pushedAt with
    | none => "Completed"
    | some d => if d.epochMs < oneYearAgoMs then "Archived" else "Completed"

/-- `PortfolioEntry` of the web variant, with the transient UI `enabled`
flag. -/
structure WebEntry where
  name : String
  shortDescription : Option String := none
  description : Option String := none
  category : Option String := none
  technologies : Option (List String) := none
  status : Option String := none
  dateCompleted : Option String := none
  models : Option (List String) := none
  images : Option (List String) := none
  featured : Option Bool := none
  github : String := ""
  links : Option Links := none
  media : Option Media := none
  enabled : Bool := true
deriving Repr, DecidableEq

/-- The README paragraph collector of the web `processRepo` (portfolio.ts
lines 177-187): like the CLI one but headings never break the loop. -/
def webReadmeParagraphs : List String → Bool → List String → List String
  | [], _, acc => acc.reverse
  | line :: ls, pastTitle, acc =>
    let trimmed := strTrim line
    if strLead trimmed "#" then webReadmeParagraphs ls true acc
    else if decide (trimmed = "") || strLead trimmed "[![" || strLead trimmed "<" then
      webReadmeParagraphs ls pastTitle acc
    else
      let acc2 := if pastTitle then trimmed :: acc else acc
      if acc2.length ≥ 3 then acc2.reverse
      else webReadmeParagraphs ls pastTitle acc2

/-- Description and short description of the web auto-detect path
(portfolio.ts lines 173-196). -/
def webDescriptions (repoDesc : Option String) (readmeRaw : Option String) :
    Option String × Option String :=
  let description0 := jsOptStr repoDesc
  let short0 := description0
  match readmeRaw with
  | none => (description0, short0)
  | some raw =>
    if raw = "" then (description0, short0)
    else
      let paragraphs := webReadmeParagraphs (splitChar '\n' raw) false []
      if paragraphs.isEmpty then (description0, short0)
      else
        let readme := String.intercalate " " paragraphs
        let description := match description0 with
          | none => some readme
          | some d => if readme.length > d.length then some readme else some d
        let short := match short0 with
          | some s => some s
          | none => some (match firstSentenceMatch readme with
              | some m => strTrim m
              | none => strTake readme 120)
        (description, short)

/-- `tree.filter(f => MODEL_EXTS.some(e => f.endsWith(e)))`: case-sensitive
suffix matching. -/
def webFindModels (tree : List String) : List String :=
  tree.filter (fun f => MODEL_EXTS.any (fun e => strTrail f e))

/-- `tree.filter(f => IMAGE_EXTS.some(e => f.endsWith(e)) && IMAGE_DIRS.some(d => f.startsWith(d)))`. -/
def webFindImages (tree : List String) : List String :=
  tree.filter (fun f =>
    IMAGE_EXTS.any (fun e => strTrail f e) && IMAGE_DIRS.any (fun d => strLead f d))

/-- The override path of the web `processRepo` (portfolio.ts lines 150-169).
The web variant runs `JSON.parse` without schema validation; we model the
well-typed documents that the claims quantify over.  `enabled` is
`config.exclude !== true`. -/
def webConfigEntry (repo : RepoInfo) (cfg : PortfolioConfig) (oneYearAgoMs : Int) :
    WebEntry :=
  { name := if cfg.name = "" then cleanRepoName repo.name else cfg.name
    shortDescription := cfg.shortDescription
    description := jsOrOptStr cfg.description (jsOptStr repo.description)
    category := some (jsStrOr cfg.category (webInferCategory repo.topics repo.language))
    technologies := some (cfg.technologies.getD (webInferTech repo.language repo.topics))
    status := some (jsStrOr cfg.status (webInferStatus repo oneYearAgoMs))
    dateCompleted := some (jsStrOr cfg.dateCompleted (toYearMonth repo.pushedAt))
    featured := cfg.featured
    github := repo.url
    links := match cfg.links with
      | some l => some l
      | none =>
        match repo.homepage with
        | some h => if h = "" then none else some { liveDemo := some h }
        | none => none
    media := cfg.media
    models := cfg.models
    images := cfg.images
    enabled := !decide (cfg.exclude = some true) }

/-- The auto-detect path of the web `processRepo` (portfolio.ts lines
172-216). -/
def webAutoEntry (repo : RepoInfo) (readmeRaw : Option String) (tree : List String)
    (oneYearAgoMs : Int) : WebEntry :=
  let ds := webDescriptions repo.description readmeRaw
  let models := webFindModels tree
  let images := webFindImages tree
  { name := cleanRepoName repo.name
    shortDescription := ds.2
    description := ds.1
    category := some (webInferCategory repo.topics repo.language)
    technologies := some (webInferTech repo.language repo.topics)
    status := some (webInferStatus repo oneYearAgoMs)
    dateCompleted := some (toYearMonth repo.pushedAt)
    github := repo.url
    links := match repo.homepage with
      | some h => if h = "" then none else some { liveDemo := some h }
      | none => none
    models := if models.isEmpty then none else some models
    images := if images.isEmpty then none else some images
    enabled := true }

/-- The web `processRepo` (portfolio.ts lines 141-216). -/
def webProcessRepo (repo : RepoInfo) (config : Option PortfolioConfig)
    (readmeRaw : Option String) (tree : List String) (oneYearAgoMs : Int) :
    WebEntry :=
  match config with
  | some cfg => webConfigEntry repo cfg oneYearAgoMs
  | none => webAutoEntry repo readmeRaw tree oneYearAgoMs

/-- The filter of `formatEntries` (portfolio.ts line 265): every encoding
serializes exactly the enabled entries. -/
def webEnabledEntries (entries : List WebEntry) : List WebEntry :=
  entries.filter (·.enabled)

/-- The present fields of a web entry as serialized by `toJson`, which strips
the transient `enabled` flag. -/
def webEntryFields (e : WebEntry) : List (String × Json) :=
  [("name", Json.str e.name)]
  ++ optField "shortDescription" (e.shortDescription.map Json.str)
  ++ optField "description" (e.description.map Json.str)
  ++ optField "category" (e.category.map Json.str)
  ++ optField "technologies" (e.technologies.map (fun ts => Json.arr (ts.map Json.str)))
  ++ optField "status" (e.status.map Json.str)
  ++ optField "dateCompleted" (e.dateCompleted.map Json.str)
  ++ optField "models" (e.models.map (fun ms => Json.arr (ms.map Json.str)))
  ++ optField "images" (e.images.map (fun imgs => Json.arr (imgs.map Json.str)))
  ++ optField "featured" (e.featured.map Json.bool)
  ++ [("github", Json.str e.github)]
  ++ optField "links" (e.links.map linksToJson)
  ++ optField "media" (e.media.map mediaToJson)

def webEntryToJson (e : WebEntry) : Json := Json.obj (webEntryFields e)

/-- The JSON document of the web `toJson` (portfolio.ts lines 219-222). -/
def webToJsonDoc (entries : List WebEntry) : Json :=
  Json.obj [("projects", Json.arr (entries.map webEntryToJson))]

/-- The per-entry lines of the web `toYaml` (portfolio.ts lines 224-239). -/
def webEntryYamlLines (e : WebEntry) : List String :=
  ["  - name: \"" ++ e.name ++ "\""]
  ++ yamlOptQuoted "shortDescription" e.shortDescription
  ++ yamlOptPlain "category" e.category
  ++ (match e.technologies with
      | some ts =>
        if ts.isEmpty then []
        else ["    technologies: [" ++ String.intercalate ", " ts ++ "]"]
      | none => [])
  ++ yamlOptPlain "status" e.status
  ++ yamlOptPlain "dateCompleted" e.dateCompleted
  ++ ["    github: " ++ e.github]
  ++ (if e.featured = some true then ["    featured: true"] else [])
  ++ (match e.links with
      | some l =>
        match l.liveDemo with
        | some v => if v = "" then [] else ["    liveDemo: " ++ v]
        | none => []
      | none => [])
  ++ [""]

def webToYaml (entries : List WebEntry) : String :=
  String.intercalate "\n" ("projects:" :: entries.flatMap webEntryYamlLines)

/-- Insertion-ordered category grouping of the web `toMarkdown`. -/
def webPushCategory (acc : List (String × List WebEntry)) (cat : String)
    (e : WebEntry) : List (String × List WebEntry) :=
  match acc with
  | [] => [(cat, [e])]
  | (c, es) :: rest =>
    if c = cat then (c, es ++ [e]) :: rest else (c, es) :: webPushCategory rest cat e

def webGroupByCategory (entries : List WebEntry) : List (String × List WebEntry) :=
  entries.foldl (fun acc e => webPushCategory acc (jsStrOr e.category "Other") e) []

/-- The per-entry lines of the web `toMarkdown` (portfolio.ts lines 241-262);
the `" *"` suffix marks featured entries. -/
def webEntryMdLines (p : WebEntry) : List String :=
  ["### " ++ p.name ++ (if p.featured = some true then " *" else "") ++ "\n"]
  ++ (match p.shortDescription with
      | some s => if s = "" then [] else [s ++ "\n"]
      | none => [])
  ++ (match p.technologies with
      | some ts =>
        if ts.isEmpty then [] else ["- **Tech:** " ++ String.intercalate ", " ts]
      | none => [])
  ++ (match p.status with
      | some s => if s = "" then [] else ["- **Status:** " ++ s]
      | none => [])
  ++ ["- **GitHub:** " ++ p.github]
  ++ (match p.links with
      | some l =>
        match l.liveDemo with
        | some v => if v = "" then [] else ["- **Live:** " ++ v]
        | none => []
      | none => [])
  ++ [""]

/-- The web `toMarkdown` header reproduces the source file's literal bytes. -/
def webToMarkdown (entries : List WebEntry) : String :=
  String.intercalate "\n"
    (("# Portfolio â€” " ++ toString entries.length ++ " projects\n")
      :: (webGroupByCategory entries).flatMap
          (fun g => ("## " ++ g.1 ++ "\n") :: g.2.flatMap webEntryMdLines))

/-- `featured` truthiness of a web entry. -/
def webFeatured (e : WebEntry) : Bool := decide (e.featured = some true)

/-- `e.dateCompleted || ""` of a web entry. -/
def webDateKey (e : WebEntry) : String := jsStrOr e.dateCompleted ""

/-- The sort of the web scanner (`startScan`): the same comparator as the
CLI. -/
def webSortEntries (l : List WebEntry) : List WebEntry :=
  jsStableSort webFeatured webDateKey l

/-! ### Local README Extractor (src/detectors/readme-parser.ts) -/

/-- Result of `parseReadme`. -/
structure ReadmeResult where
  description : Option String := none
  shortDescription : Option String := none
deriving Repr, DecidableEq

/-- `isBadge`: shield markup, or an inline image mentioning "badge". -/
def isBadge (line : String) : Bool :=
  strLead line "[![" || (strLead line "![" && strHas line "badge")

/-- `isHeading`. -/
def isHeading (line : String) : Bool := strLead line "#"

/-- `isHtml`: raw markup lines except anchor-like ones. -/
def isHtml (line : String) : Bool := strLead line "<" && !strLead line "<a"

/-- `isSkippable`: blank, badge, heading, or raw markup (after trimming). -/
def isSkippable (line : String) : Bool :=
  let trimmed := strTrim line
  decide (trimmed = "") || isBadge trimmed || isHeading trimmed || isHtml trimmed

/-- `line.replace(/^#+\s*/, "").trim().toLowerCase()` for a heading line. -/
def headingText (line : String) : String :=
  strLower (strTrim (String.mk ((line.data.dropWhile (· = '#')).dropWhile (·.isWhitespace))))

/-- `extractSection`: the lines under a heading from the wanted list, until
the next heading. -/
def extractSection (content : String) (headings : List String) : Option String :=
  go (splitChar '\n' content) false []
where
  go : List String → Bool → List String → Option String
  | [], _, acc => if acc.isEmpty then none else some (String.intercalate " " acc.reverse)
  | line :: ls, capturing, acc =>
    if isHeading line then
      if memB (headingText line) headings then go ls true acc
      else if capturing then
        (if acc.isEmpty then none else some (String.intercalate " " acc.reverse))
      else go ls capturing acc
    else if capturing && !decide (strTrim line = "") then go ls capturing (strTrim line :: acc)
    else go ls capturing acc

/-- `extractFirstParagraph` (readme-parser.ts lines 68-92): skip the title
and leading skippable lines, then collect until the first skippable line
after content started. -/
def extractFirstParagraph (content : String) : Option String :=
  go (splitChar '\n' content) false []
where
  go : List String → Bool → List String → Option String
  | [], _, acc => if acc.isEmpty then none else some (String.intercalate " " acc.reverse)
  | line :: ls, pastTitle, acc =>
    if !pastTitle then
      if isHeading line then go ls true acc
      else if isSkippable line then go ls false acc
      else go ls true (strTrim line :: acc)
    else if isSkippable line then
      if !acc.isEmpty then some (String.intercalate " " acc.reverse)
      else go ls pastTitle acc
    else go ls pastTitle (strTrim line :: acc)

/-- `firstSentence` (readme-parser.ts lines 94-98) with the default cap of
120 characters. -/
def firstSentence (text : String) : String :=
  let sentence := match firstSentenceMatch text with
    | some m => strTrim m
    | none => text
  if sentence.length > 120 then strTake sentence 117 ++ "..." else sentence

/-- `parseReadme` applied to already-fetched content (`none` models a
missing/unreadable README, which yields the empty result). -/
def parseReadmeContent (content : Option String) : ReadmeResult :=
  match content with
  | none => {}
  | some c =>
    let description :=
      match extractSection c ["description", "about", "overview"] with
      | some d => some d
      | none => extractFirstParagraph c
    match description with
    | none => {}
    | some d => { description := some d, shortDescription := some (firstSentence d) }

/-! ### Local Asset Locator (src/detectors/asset-detector.ts) -/

/-- A directory tree entry, modelling the file system the detector walks. -/
inductive FsEntry where
  | file (name : String) : FsEntry
  | dir (name : String) (entries : List FsEntry) : FsEntry

/-- Infrastructure directories pruned before recursion. -/
def SKIP_DIRS : List String :=
  ["node_modules", ".git", "dist", "build", "__pycache__",
   ".next", ".cache", "vendor", ".venv", "venv"]

/-- The asset-convention directories of the local variant (including
`public`, unlike the remote variants). -/
def LOCAL_IMAGE_DIRS : List String :=
  ["docs", "assets", "images", "screenshots", "public", "media"]

def THUMB_PATTERNS : List String := ["thumb", "cover", "hero", "banner", "preview"]

/-- Node's `extname(name).toLowerCase()`: the suffix from the last dot of the
basename, empty for dotfiles and extensionless names. -/
def extnameLower (n : String) : String :=
  let cs := n.data
  match cs.reverse.findIdx? (· = '.') with
  | none => ""
  | some i =>
    let p := cs.length - 1 - i
    if p = 0 then "" else strLower (String.mk (cs.drop p))

/-- `path.join` of relative segments, normalized to forward slashes. -/
def relJoin (rel n : String) : String := if rel = "" then n else rel ++ "/" ++ n

/-- `walkDir` (asset-detector.ts lines 19-54): prune `SKIP_DIRS`, restrict to
the named directories only at depth 0, and collect files whose lower-cased
extension passes the filter, as paths relative to the walk root. -/
def walkDir (flt : String → Bool) (restrict : Option (List String))
    (depth : Nat) (rel : String) : List FsEntry → List String
  | [] => []
  | .file n :: rest =>
    (if memB n SKIP_DIRS then []
     else if flt (extnameLower n) then [relJoin rel n] else [])
    ++ walkDir flt restrict depth rel rest
  | .dir n sub :: rest =>
    (if memB n SKIP_DIRS then []
     else
       match restrict, depth with
       | some dirs, 0 =>
         if memB (strLower n) dirs then
           walkDir flt none (depth + 1) (relJoin rel n) sub
         else []
       | _, _ => walkDir flt none (depth + 1) (relJoin rel n) sub)
    ++ walkDir flt restrict depth rel rest

/-- `pickThumbnail` (asset-detector.ts lines 56-68): first image whose
basename matches a thumbnail prefix pattern, in pattern order;
otherwise the first image. -/
def pickThumbnail (images : List String) : Option String :=
  match images with
  | [] => none
  | _ =>
    match THUMB_PATTERNS.findSome?
        (fun p => images.find?
          (fun img => strLead (strLower ((splitChar '/' img).getLastD "")) p)) with
    | some m => some m
    | none => images.head?

/-- Result of `detectAssets`. -/
structure AssetResult where
  models : List String := []
  images : List String := []
  thumbnail : Option String := none
deriving Repr, DecidableEq

/-- `detectAssets` (asset-detector.ts lines 70-87): models anywhere, images
only under the designated top-level directories, and a thumbnail pick. -/
def detectAssets (root : List FsEntry) : AssetResult :=
  let models := walkDir (fun ext => memB ext MODEL_EXTS) none 0 "" root
  let images := walkDir (fun ext => memB ext IMAGE_EXTS) (some LOCAL_IMAGE_DIRS) 0 "" root
  { models := models, images := images, thumbnail := pickThumbnail images }

/-! ### Local metadata detector and the `update` command -/

/-- `inferStatus` (metadata-detector.ts lines 28-33): no discoverable commit
date means `"Completed"`. -/
def metadataInferStatus (lastCommitDate : Option JSDate) (oneYearAgoMs : Int) :
    String :=
  match lastCommitDate with
  | none => "Completed"
  | some d => if d.epochMs < oneYearAgoMs then "Archived" else "Completed"

/-- Result of `detectMetadata` (whose git/package probing is I/O and enters
the model as data). -/
structure MetadataResult where
  name : String
  shortDescription : Option String := none
  description : Option String := none
  status : Option String := none
  dateCompleted : Option String := none
  links : Option Links := none
deriving Repr, DecidableEq

/-- Result of `detectTechStack`. -/
structure TechResult where
  technologies : List String := []
  category : String := "Software"
  languages : List String := []
deriving Repr, DecidableEq

/-- Is a possibly-absent string falsy (`undefined` or `""`)? -/
def jsStrFalsy (o : Option String) : Bool := !jsStrTruthy o

/-- The `update` command (cli.ts lines 117-169): start from the existing
config, refresh `technologies` when absent or empty, refresh `category`,
`shortDescription`, `description` and `thumbnail` when falsy, and always
refresh `models`/`images` from the current scan.  All other fields are left
as they were.  (The final `JSON.parse(JSON.stringify(...))` drops only
`undefined` fields, the identity on this model.) -/
def cliUpdate (existing : PortfolioConfig) (tech : TechResult)
    (assets : AssetResult) (readme : ReadmeResult) (meta : MetadataResult) :
    PortfolioConfig :=
  let u := existing
  let u := if existing.technologies = none ∨ existing.technologies = some [] then
      { u with technologies :=
          if tech.technologies.isEmpty then none else some tech.technologies }
    else u
  let u := if jsStrFalsy existing.category then { u with category := some tech.category } else u
  let u := if jsStrFalsy existing.shortDescription then
      { u with shortDescription := jsOrOptStr readme.shortDescription meta.shortDescription }
    else u
  let u := if jsStrFalsy existing.description then
      { u with description := jsOrOptStr readme.description meta.description }
    else u
  let u := { u with
    models := if assets.models.isEmpty then none else some assets.models,
    images := if assets.images.isEmpty then none else some assets.images }
  if jsStrFalsy existing.thumbnail then { u with thumbnail := assets.thumbnail } else u

/-! ### Properties of the pre-format sort -/

theorem jsSortLe_iff {α : Type} (feat : α → Bool) (key : α → String) (a b : α) :
    jsSortLe feat key a b = true ↔
      ((feat a = true ∧ feat b = false) ∨
        (feat a = feat b ∧ charListLt (key a).data (key b).data = false)) := by
  unfold jsSortLe jsSortCmp
  cases hfa : feat a <;> cases hfb : feat b <;>
    simp only [Bool.true_and, Bool.false_and, Bool.and_true, Bool.and_false,
      Bool.not_true, Bool.not_false, if_true, if_false, decide_eq_true_eq,
      Bool.true_eq_false, Bool.false_eq_true, false_and, true_and, false_or,
      or_false, and_self, ite_true, ite_false]
  · by_cases h1 : charListLt (key b).data (key a).data = true
    · simp [h1, charListLt_asymm h1]
    · by_cases h2 : charListLt (key a).data (key b).data = true
      · simp [h1, h2]
      · simp only [Bool.not_eq_true] at h1 h2
        simp [h1, h2]
  · simp
  · norm_num
  · by_cases h1 : charListLt (key b).data (key a).data = true
    · simp [h1, charListLt_asymm h1]
    · by_cases h2 : charListLt (key a).data (key b).data = true
      · simp [h1, h2]
      · simp only [Bool.not_eq_true] at h1 h2
        simp [h1, h2]

theorem jsSortLe_trans {α : Type} (feat : α → Bool) (key : α → String) :
    ∀ a b c : α, jsSortLe feat key a b = true → jsSortLe feat key b c = true →
      jsSortLe feat key a c = true := by
  intro a b c hab hbc
  rw [jsSortLe_iff] at hab hbc ⊢
  rcases hab with ⟨ha, hb⟩ | ⟨hab, sab⟩
  · rcases hbc with ⟨hb', _⟩ | ⟨hbc, _⟩
    · rw [hb] at hb'
      simp at hb'
    · exact Or.inl ⟨ha, hbc ▸ hb⟩
  · rcases hbc with ⟨hb', hc⟩ | ⟨hbc, sbc⟩
    · exact Or.inl ⟨hab.trans hb', hc⟩
    · refine Or.inr ⟨hab.trans hbc, ?_⟩
      by_cases hac : charListLt (key a).data (key c).data = true
      · by_cases hcb : charListLt (key c).data (key b).data = true
        · have h := charListLt_trans _ _ _ hac hcb
          rw [h] at sab
          simp at sab
        · have heq : (key b).data = (key c).data :=
            charListLt_eq_of_not _ _ sbc (by simpa using hcb)
          rw [← heq] at hac
          rw [hac] at sab
          simp at sab
      · simpa using hac

theorem jsSortLe_total {α : Type} (feat : α → Bool) (key : α → String) :
    ∀ a b : α, (jsSortLe feat key a b || jsSortLe feat key b a) = true := by
  intro a b
  rw [Bool.or_eq_true, jsSortLe_iff, jsSortLe_iff]
  cases hfa : feat a <;> cases hfb : feat b <;> simp
  · by_cases h : charListLt (key a).data (key b).data = true
    · exact Or.inr (charListLt_asymm h)
    · exact Or.inl (by simpa using h)
  · by_cases h : charListLt (key a).data (key b).data = true
    · exact Or.inr (charListLt_asymm h)
    · exact Or.inl (by simpa using h)

theorem jsStableSort_perm {α : Type} (feat : α → Bool) (key : α → String)
    (l : List α) : (jsStableSort feat key l).Perm l :=
  List.mergeSort_perm l (jsSortLe feat key)

theorem jsStableSort_sorted {α : Type} (feat : α → Bool) (key : α → String)
    (l : List α) :
    List.Pairwise (fun a b => jsSortLe feat key a b = true)
      (jsStableSort feat key l) :=
  List.sorted_mergeSort (jsSortLe_trans feat key) (jsSortLe_total feat key) l

theorem jsStableSort_featuredFirst {α : Type} (feat : α → Bool)
    (key : α → String) (l : List α) :
    List.Pairwise (fun a b => feat b = true → feat a = true)
      (jsStableSort feat key l) := by
  refine (jsStableSort_sorted feat key l).imp ?_
  intro a b h hb
  rw [jsSortLe_iff] at h
  rcases h with ⟨ha, _⟩ | ⟨heq, _⟩
  · exact ha
  · rw [heq]
    exact hb

theorem jsStableSort_datesDesc {α : Type} (feat : α → Bool)
    (key : α → String) (l : List α) :
    List.Pairwise
      (fun a b => feat a = feat b → charListLt (key a).data (key b).data = false)
      (jsStableSort feat key l) := by
  refine (jsStableSort_sorted feat key l).imp ?_
  intro a b h heq
  rw [jsSortLe_iff] at h
  rcases h with ⟨ha, hb⟩ | ⟨_, hs⟩
  · rw [ha, hb] at heq
    simp at heq
  · exact hs

theorem jsStableSort_stable {α : Type} (feat : α → Bool) (key : α → String)
    (l : List α) (p : α → Bool)
    (hp : ∀ a b, p a = true → p b = true → jsSortLe feat key a b = true) :
    (jsStableSort feat key l).filter p = l.filter p := by
  have hsub : (l.filter p).Sublist l := List.filter_sublist l
  have hpair : List.Pairwise (fun a b => jsSortLe feat key a b = true) (l.filter p) :=
    List.pairwise_of_forall_mem_list (fun a ha b hb =>
      hp a b (List.mem_filter.mp ha).2 (List.mem_filter.mp hb).2)
  have h1 : (l.filter p).Sublist (jsStableSort feat key l) :=
    List.sublist_mergeSort (jsSortLe_trans feat key) (jsSortLe_total feat key)
      hpair hsub
  have hself : (l.filter p).filter p = l.filter p := by
    rw [List.filter_eq_self]
    exact fun a ha => (List.mem_filter.mp ha).2
  have h2 : (l.filter p).Sublist ((jsStableSort feat key l).filter p) := by
    have h := h1.filter p
    rwa [hself] at h
  have hperm : ((jsStableSort feat key l).filter p).Perm (l.filter p) :=
    (List.mergeSort_perm l (jsSortLe feat key)).filter p
  exact (h2.eq_of_length hperm.length_eq.symm).symm

theorem jsStableSort_stableKey {α : Type} (feat : α → Bool) (key : α → String)
    (l : List α) (fr : Bool) (d : String) :
    (jsStableSort feat key l).filter
        (fun e => decide (feat e = fr) && decide (key e = d))
      = l.filter (fun e => decide (feat e = fr) && decide (key e = d)) := by
  apply jsStableSort_stable
  intro a b ha hb
  simp only [Bool.and_eq_true, decide_eq_true_eq] at ha hb
  rw [jsSortLe_iff]
  refine Or.inr ⟨ha.1.trans hb.1.symm, ?_⟩
  rw [ha.2, hb.2, charListLt_irrefl]

/-! ### Concrete fixtures used by the claim theorems -/

/-- A repository with no language, no topics and a March 2024 last push. -/
def repoBare : RepoInfo :=
  { name := "robo-arm", url := "https://github.com/u/robo-arm",
    pushedAt := some ⟨100, 2024, 2⟩ }

/-- A Python robotics repository. -/
def repoRobo : RepoInfo :=
  { name := "robo", url := "https://github.com/u/robo",
    topics := ["robotics"], language := some "Python",
    pushedAt := some ⟨100, 2024, 2⟩ }

/-- Override document `{"name": "X", "exclude": true}`. -/
def cfgExcludeJson : Json := .obj [("name", .str "X"), ("exclude", .bool true)]

/-- Override document `{"dateCompleted": "2024/03"}` (the claim C6 input). -/
def badDateDoc : Json := .obj [("dateCompleted", .str "2024/03")]

/-- Override document `{"name": "X", "dateCompleted": "2024/03"}`. -/
def namedBadDateDoc : Json :=
  .obj [("name", .str "X"), ("dateCompleted", .str "2024/03")]

/-- Override document `{"name": "X"}`. -/
def nameOnlyDoc : Json := .obj [("name", .str "X")]

/-- Override document `{"name": "X", "category": ""}`. -/
def emptyCategoryDoc : Json := .obj [("name", .str "X"), ("category", .str "")]

/-- The README scenario text of the spec. -/
def readmeSample : String :=
  "# Title\n\n![badge](url)\n\nThis project does X. It also does Y.\n\nMore text."

/-! ### Helper lemmas -/

theorem mem_optField {k : String} {w : Option Json} {p : String × Json} :
    p ∈ optField k w ↔ ∃ j, w = some j ∧ p = (k, j) := by
  cases w <;> simp [optField]

/-- Which `models` value a serialized CLI entry carries. -/
theorem models_mem_cliEntryFields (e : CliEntry) (v : Json) :
    ("models", v) ∈ cliEntryFields e ↔
      ∃ ms, e.models = some ms ∧ v = Json.arr (ms.map Json.str) := by
  simp [cliEntryFields, mem_optField, List.mem_append, Option.map_eq_some']
  aesop

/-- Which `images` value a serialized CLI entry carries. -/
theorem images_mem_cliEntryFields (e : CliEntry) (v : Json) :
    ("images", v) ∈ cliEntryFields e ↔
      ∃ imgs, e.images = some imgs ∧ v = Json.arr (imgs.map Json.str) := by
  simp [cliEntryFields, mem_optField, List.mem_append, Option.map_eq_some']
  aesop

/-- Which `technologies` value a serialized CLI entry carries. -/
theorem technologies_mem_cliEntryFields (e : CliEntry) (v : Json) :
    ("technologies", v) ∈ cliEntryFields e ↔
      ∃ ts, e.technologies = some ts ∧ v = Json.arr (ts.map Json.str) := by
  simp [cliEntryFields, mem_optField, List.mem_append, Option.map_eq_some']
  aesop

/-- Which `models` value a serialized web entry carries. -/
theorem models_mem_webEntryFields (e : WebEntry) (v : Json) :
    ("models", v) ∈ webEntryFields e ↔
      ∃ ms, e.models = some ms ∧ v = Json.arr (ms.map Json.str) := by
  simp [webEntryFields, mem_optField, List.mem_append, Option.map_eq_some']
  aesop

/-- Which `images` value a serialized web entry carries. -/
theorem images_mem_webEntryFields (e : WebEntry) (v : Json) :
    ("images", v) ∈ webEntryFields e ↔
      ∃ imgs, e.images = some imgs ∧ v = Json.arr (imgs.map Json.str) := by
  simp [webEntryFields, mem_optField, List.mem_append, Option.map_eq_some']
  aesop

/-- Which `technologies` value a serialized web entry carries. -/
theorem technologies_mem_webEntryFields (e : WebEntry) (v : Json) :
    ("technologies", v) ∈ webEntryFields e ↔
      ∃ ts, e.technologies = some ts ∧ v = Json.arr (ts.map Json.str) := by
  simp [webEntryFields, mem_optField, List.mem_append, Option.map_eq_some']
  aesop

/-- The `models` field of a CLI auto-detected entry. -/
theorem cliAutoEntry_models (repo : RepoInfo) (rr : Option String)
    (tr : List String) (t : Int) :
    (cliAutoEntry repo rr tr t).models =
      (if (findAssetsInTree tr).models.isEmpty then none
       else some (findAssetsInTree tr).models) := by
  unfold cliAutoEntry
  dsimp only
  cases repo.homepage <;> dsimp only <;> split_ifs <;> rfl

/-- The `images` field of a CLI auto-detected entry. -/
theorem cliAutoEntry_images (repo : RepoInfo) (rr : Option String)
    (tr : List String) (t : Int) :
    (cliAutoEntry repo rr tr t).images =
      (if (findAssetsInTree tr).images.isEmpty then none
       else some (findAssetsInTree tr).images) := by
  unfold cliAutoEntry
  dsimp only
  cases repo.homepage <;> dsimp only <;> split_ifs <;> rfl

/-- The `technologies` field of a CLI auto-detected entry. -/
theorem cliAutoEntry_technologies (repo : RepoInfo) (rr : Option String)
    (tr : List String) (t : Int) :
    (cliAutoEntry repo rr tr t).technologies =
      some (inferTechFromLanguage repo.language repo.topics) := by
  unfold cliAutoEntry
  dsimp only
  cases repo.homepage <;> dsimp only <;> split_ifs <;> rfl

/-- The `dateCompleted` field of a CLI auto-detected entry. -/
theorem cliAutoEntry_dateCompleted (repo : RepoInfo) (rr : Option String)
    (tr : List String) (t : Int) :
    (cliAutoEntry repo rr tr t).dateCompleted = some (toYearMonth repo.pushedAt) := by
  unfold cliAutoEntry
  dsimp only
  cases repo.homepage <;> dsimp only <;> split_ifs <;> rfl

/-- Membership characterization of the model listing of `findAssetsInTree`. -/
theorem findAssetsInTree_models_mem :
    ∀ (files : List String) (f : String),
      f ∈ (findAssetsInTree files).models ↔ f ∈ files ∧ isModelPath f = true := by
  intro files f
  induction files with
  | nil => simp [findAssetsInTree]
  | cons g gs ih =>
    simp only [findAssetsInTree, List.mem_append, List.mem_cons]
    by_cases h : isModelPath g = true
    · simp only [if_pos h, List.mem_singleton]
      constructor
      · rintro (rfl | hf)
        · exact ⟨Or.inl rfl, h⟩
        · exact ⟨Or.inr (ih.mp hf).1, (ih.mp hf).2⟩
      · rintro ⟨rfl | hf, hm⟩
        · exact Or.inl rfl
        · exact Or.inr (ih.mpr ⟨hf, hm⟩)
    · simp only [if_neg h, List.not_mem_nil, false_or]
      constructor
      · intro hf
        exact ⟨Or.inr (ih.mp hf).1, (ih.mp hf).2⟩
      · rintro ⟨rfl | hf, hm⟩
        · exact absurd hm h
        · exact ih.mpr ⟨hf, hm⟩

/-- Membership characterization of the image listing of `findAssetsInTree`. -/
theorem findAssetsInTree_images_mem :
    ∀ (files : List String) (f : String),
      f ∈ (findAssetsInTree files).images ↔ f ∈ files ∧ isImagePath f = true := by
  intro files f
  induction files with
  | nil => simp [findAssetsInTree]
  | cons g gs ih =>
    simp only [findAssetsInTree, List.mem_append, List.mem_cons]
    by_cases h : isImagePath g = true
    · simp only [if_pos h, List.mem_singleton]
      constructor
      · rintro (rfl | hf)
        · exact ⟨Or.inl rfl, h⟩
        · exact ⟨Or.inr (ih.mp hf).1, (ih.mp hf).2⟩
      · rintro ⟨rfl | hf, hm⟩
        · exact Or.inl rfl
        · exact Or.inr (ih.mpr ⟨hf, hm⟩)
    · simp only [if_neg h, List.not_mem_nil, false_or]
      constructor
      · intro hf
        exact ⟨Or.inr (ih.mp hf).1, (ih.mp hf).2⟩
      · rintro ⟨rfl | hf, hm⟩
        · exact absurd hm h
        · exact ih.mpr ⟨hf, hm⟩

set_option maxHeartbeats 1000000 in
/-- Normal form of the `update` command: every condition written out once. -/
theorem cliUpdate_eq (ex : PortfolioConfig) (tech : TechResult)
    (assets : AssetResult) (rd : ReadmeResult) (meta : MetadataResult) :
    cliUpdate ex tech assets rd meta =
      { ex with
        technologies :=
          if ex.technologies = none ∨ ex.technologies = some [] then
            (if tech.technologies.isEmpty then none else some tech.technologies)
          else ex.technologies,
        category := if jsStrFalsy ex.category then some tech.category else ex.category,
        shortDescription :=
          if jsStrFalsy ex.shortDescription then
            jsOrOptStr rd.shortDescription meta.shortDescription
          else ex.shortDescription,
        description :=
          if jsStrFalsy ex.description then
            jsOrOptStr rd.description meta.description
          else ex.description,
        models := if assets.models.isEmpty then none else some assets.models,
        images := if assets.images.isEmpty then none else some assets.images,
        thumbnail := if jsStrFalsy ex.thumbnail then assets.thumbnail else ex.thumbnail } := by
  unfold cliUpdate
  dsimp only
  split_ifs <;> rfl

/-- The typed form of `{"name": "X", "exclude": true}`. -/
def excludedCfg : PortfolioConfig := { name := "X", exclude := some true }

/-- The entry the CLI pipeline builds for `repoRobo` with the excluding
override. -/
def excludedEntry : CliEntry :=
  { name := "X", category := some "Robotics", technologies := some ["Python"],
    status := some "Completed", exclude := some true,
    github := "https://github.com/u/robo" }

/-- Detector outputs used by the C9 results. -/
def metaSample : MetadataResult :=
  { name := "Robo", status := some "Completed", dateCompleted := some "2024-01",
    links := some { liveDemo := some "https://robo.dev" } }

def techSample : TechResult :=
  { technologies := ["TypeScript"], category := "Software", languages := ["TypeScript"] }

def assetsSample : AssetResult := { models := ["cad/arm.stl"] }

/-- A previous override document with most fields set manually. -/
def prevCfg : PortfolioConfig :=
  { name := "X", category := some "Robotics", technologies := some ["A"],
    shortDescription := some "S", description := some "D", thumbnail := some "t.png",
    status := some "In Progress" }

/-! ### Claim results -/

/-- C1: a valid override with `exclude: true` is claimed to remove the
repository from the final output of the generate pipeline in every encoding.
The web variant does filter it (its `enabled` flag is false and
`formatEntries` drops it from all three encodings), but the CLI `generate`
pipeline never consults the flag: the entry is built, sorted, and emitted in
the JSON, YAML and Markdown outputs (the JSON document even carries the
`exclude` flag itself), contradicting the documented semantics of `exclude`. -/
theorem c1_cli_generate_emits_excluded_repo :
    validateConfig cfgExcludeJson = .ok excludedCfg ∧
    cliGenerateEntries [⟨repoRobo, some cfgExcludeJson, none, []⟩] [] 0 = [excludedEntry] ∧
    excludedEntry.exclude = some true ∧
    cliToJsonDoc [excludedEntry] =
      Json.obj [("projects", Json.arr [Json.obj
        [("name", Json.str "X"), ("category", Json.str "Robotics"),
         ("technologies", Json.arr [Json.str "Python"]),
         ("status", Json.str "Completed"), ("exclude", Json.bool true),
         ("github", Json.str "https://github.com/u/robo")]])] ∧
    cliToYaml [excludedEntry] =
      "projects:\n  - name: \"X\"\n    category: Robotics\n    technologies: [Python]\n    status: Completed\n    github: https://github.com/u/robo\n" ∧
    cliToMarkdown [excludedEntry] =
      "# Portfolio — 1 projects\n\n## Robotics\n\n### X\n\n- **Tech:** Python\n- **Status:** Completed\n- **GitHub:** https://github.com/u/robo\n" ∧
    (webConfigEntry repoRobo excludedCfg 0).enabled = false ∧
    webEnabledEntries [webConfigEntry repoRobo excludedCfg 0] = [] ∧
    webToJsonDoc (webEnabledEntries [webConfigEntry repoRobo excludedCfg 0]) =
      Json.obj [("projects", Json.arr [])] ∧
    webToYaml (webEnabledEntries [webConfigEntry repoRobo excludedCfg 0]) = "projects:" ∧
    webToMarkdown (webEnabledEntries [webConfigEntry repoRobo excludedCfg 0]) =
      "# Portfolio â€” 0 projects\n" := by
  have hgen : cliGenerateEntries [⟨repoRobo, some cfgExcludeJson, none, []⟩] [] 0
      = cliSortEntries [cliProcessRepo repoRobo (some cfgExcludeJson) none [] 0] := rfl
  have hproc : cliProcessRepo repoRobo (some cfgExcludeJson) none [] 0 = excludedEntry := by
    decide
  refine ⟨by decide, ?_, by decide, rfl, by decide, by decide, by decide, by decide,
    rfl, by decide, by decide⟩
  rw [hgen, hproc]
  exact List.mergeSort_singleton excludedEntry

/-- C2: with a valid override that leaves `technologies` and `category`
unset, both merge engines auto-fill those fields, and a present override
value wins — except that a present but empty-string `category` is falsy in
JavaScript, so both variants fall back to the auto-detected category (see the
counterexample); a present `technologies` list wins even when empty. -/
theorem c2_override_unset_tech_category_autofilled :
    ∀ (repo : RepoInfo) (j : Json) (cfg : PortfolioConfig) (rr : Option String)
      (tr : List String) (t : Int),
      validateConfig j = .ok cfg →
      ((cfg.technologies = none →
          (cliProcessRepo repo (some j) rr tr t).technologies
            = some (inferTechFromLanguage repo.language repo.topics)) ∧
       (cfg.category = none →
          (cliProcessRepo repo (some j) rr tr t).category
            = some (inferCategoryFromTopics repo.topics repo.language)) ∧
       (∀ ts, cfg.technologies = some ts →
          (cliProcessRepo repo (some j) rr tr t).technologies = some ts) ∧
       (∀ c, cfg.category = some c → c ≠ "" →
          (cliProcessRepo repo (some j) rr tr t).category = some c) ∧
       (cfg.technologies = none →
          (webConfigEntry repo cfg t).technologies
            = some (webInferTech repo.language repo.topics)) ∧
       (cfg.category = none →
          (webConfigEntry repo cfg t).category
            = some (webInferCategory repo.topics repo.language)) ∧
       (∀ ts, cfg.technologies = some ts →
          (webConfigEntry repo cfg t).technologies = some ts) ∧
       (∀ c, cfg.category = some c → c ≠ "" →
          (webConfigEntry repo cfg t).category = some c)) := by
  intro repo j cfg rr tr t hv
  have hp : cliProcessRepo repo (some j) rr tr t = cliConfigEntry repo cfg t := by
    simp only [cliProcessRepo, hv]
  refine ⟨?_, ?_, ?_, ?_, ?_, ?_, ?_, ?_⟩
  · intro h
    rw [hp]
    simp [cliConfigEntry, h]
  · intro h
    rw [hp]
    simp [cliConfigEntry, h, jsStrOr]
  · intro ts h
    rw [hp]
    simp [cliConfigEntry, h]
  · intro c h hne
    rw [hp]
    simp [cliConfigEntry, h, jsStrOr, hne]
  · intro h
    simp [webConfigEntry, h]
  · intro h
    simp [webConfigEntry, h, jsStrOr]
  · intro ts h
    simp [webConfigEntry, h]
  · intro c h hne
    simp [webConfigEntry, h, jsStrOr, hne]

/-- C2 witness: the robotics scenario of the spec, with an override that sets
only `name`: technologies and category are auto-filled. -/
theorem c2_witness :
    (cliProcessRepo repoRobo (some nameOnlyDoc) none [] 0).technologies = some ["Python"] ∧
    (cliProcessRepo repoRobo (some nameOnlyDoc) none [] 0).category = some "Robotics" := by
  have h := c2_override_unset_tech_category_autofilled repoRobo nameOnlyDoc
    { name := "X" } none [] 0 (by decide)
  refine ⟨?_, ?_⟩
  · rw [h.1 rfl]
    decide
  · rw [h.2.1 rfl]
    decide

/-- C2 counterexample: the valid override `{"name": "X", "category": ""}` has
`category` present, yet the merged entry carries the auto-detected category
`"Software"` rather than the override value. -/
theorem c2_counterexample_empty_category_override_ignored :
    validateConfig emptyCategoryDoc = .ok { name := "X", category := some "" } ∧
    (cliProcessRepo repoBare (some emptyCategoryDoc) none [] 0).category = some "Software" ∧
    (cliProcessRepo repoBare (some emptyCategoryDoc) none [] 0).category ≠ some "" := by
  refine ⟨by decide, by decide, by decide⟩

/-- C3 counterexample: a repository with no language and no mapped topics is
serialized with `"technologies": []` — an empty array in the JSON output,
which the claim rules out. -/
theorem c3_counterexample_empty_technologies_array_emitted :
    (cliProcessRepo repoBare none none [] 0).technologies = some [] ∧
    cliEntryFields (cliProcessRepo repoBare none none [] 0) =
      [("name", Json.str "Robo Arm"), ("category", Json.str "Software"),
       ("technologies", Json.arr []), ("status", Json.str "Completed"),
       ("dateCompleted", Json.str "2024-03"),
       ("github", Json.str "https://github.com/u/robo-arm")] := by
  exact ⟨by decide, rfl⟩

/-- C3 (amended): in the auto-detection path of both variants, `models` and
`images` are serialized either as a non-empty array or not at all, but
`technologies` is always serialized — possibly as an empty array.  (The
override path additionally passes any override-supplied arrays through
unchanged.) -/
theorem c3_models_images_nonempty_or_absent :
    ∀ (repo : RepoInfo) (rr : Option String) (tr : List String) (t : Int),
      (∀ v, ("models", v) ∈ cliEntryFields (cliAutoEntry repo rr tr t) → v ≠ Json.arr []) ∧
      (∀ v, ("images", v) ∈ cliEntryFields (cliAutoEntry repo rr tr t) → v ≠ Json.arr []) ∧
      (∃ ts : List String, ("technologies", Json.arr (ts.map Json.str))
          ∈ cliEntryFields (cliAutoEntry repo rr tr t)) ∧
      (∀ v, ("models", v) ∈ webEntryFields (webAutoEntry repo rr tr t) → v ≠ Json.arr []) ∧
      (∀ v, ("images", v) ∈ webEntryFields (webAutoEntry repo rr tr t) → v ≠ Json.arr []) ∧
      (∃ ts : List String, ("technologies", Json.arr (ts.map Json.str))
          ∈ webEntryFields (webAutoEntry repo rr tr t)) := by
  intro repo rr tr t
  have hwm : (webAutoEntry repo rr tr t).models =
      (if (webFindModels tr).isEmpty then none else some (webFindModels tr)) := rfl
  have hwi : (webAutoEntry repo rr tr t).images =
      (if (webFindImages tr).isEmpty then none else some (webFindImages tr)) := rfl
  have hwt : (webAutoEntry repo rr tr t).technologies =
      some (webInferTech repo.language repo.topics) := rfl
  refine ⟨?_, ?_, ?_, ?_, ?_, ?_⟩
  · intro v hv
    rw [models_mem_cliEntryFields] at hv
    obtain ⟨ms, hms, rfl⟩ := hv
    rw [cliAutoEntry_models] at hms
    intro hc
    have hmap : ms.map Json.str = [] := by injection hc
    have hnil : ms = [] := List.map_eq_nil_iff.mp hmap
    subst hnil
    by_cases h : (findAssetsInTree tr).models.isEmpty
    · rw [if_pos h] at hms
      exact absurd hms (by simp)
    · rw [if_neg h] at hms
      have : (findAssetsInTree tr).models = [] := Option.some.inj hms
      rw [this] at h
      simp at h
  · intro v hv
    rw [images_mem_cliEntryFields] at hv
    obtain ⟨imgs, himgs, rfl⟩ := hv
    rw [cliAutoEntry_images] at himgs
    intro hc
    have hmap : imgs.map Json.str = [] := by injection hc
    have hnil : imgs = [] := List.map_eq_nil_iff.mp hmap
    subst hnil
    by_cases h : (findAssetsInTree tr).images.isEmpty
    · rw [if_pos h] at himgs
      exact absurd himgs (by simp)
    · rw [if_neg h] at himgs
      have : (findAssetsInTree tr).images = [] := Option.some.inj himgs
      rw [this] at h
      simp at h
  · refine ⟨inferTechFromLanguage repo.language repo.topics, ?_⟩
    rw [technologies_mem_cliEntryFields]
    exact ⟨_, cliAutoEntry_technologies repo rr tr t, rfl⟩
  · intro v hv
    rw [models_mem_webEntryFields] at hv
    obtain ⟨ms, hms, rfl⟩ := hv
    rw [hwm] at hms
    intro hc
    have hmap : ms.map Json.str = [] := by injection hc
    have hnil : ms = [] := List.map_eq_nil_iff.mp hmap
    subst hnil
    by_cases h : (webFindModels tr).isEmpty
    · rw [if_pos h] at hms
      exact absurd hms (by simp)
    · rw [if_neg h] at hms
      have : webFindModels tr = [] := Option.some.inj hms
      rw [this] at h
      simp at h
  · intro v hv
    rw [images_mem_webEntryFields] at hv
    obtain ⟨imgs, himgs, rfl⟩ := hv
    rw [hwi] at himgs
    intro hc
    have hmap : imgs.map Json.str = [] := by injection hc
    have hnil : imgs = [] := List.map_eq_nil_iff.mp hmap
    subst hnil
    by_cases h : (webFindImages tr).isEmpty
    · rw [if_pos h] at himgs
      exact absurd himgs (by simp)
    · rw [if_neg h] at himgs
      have : webFindImages tr = [] := Option.some.inj himgs
      rw [this] at h
      simp at h
  · refine ⟨webInferTech repo.language repo.topics, ?_⟩
    rw [technologies_mem_webEntryFields]
    exact ⟨_, hwt, rfl⟩

/-- C3 witness: a tree containing one model file makes the serialized
`models` value a non-empty array, and `technologies` is present. -/
theorem c3_witness :
    Json.arr [Json.str "cad/arm.stl"] ≠ Json.arr [] ∧
    (∃ ts : List String, ("technologies", Json.arr (ts.map Json.str))
        ∈ cliEntryFields (cliAutoEntry repoBare none ["cad/arm.stl"] 0)) := by
  have h := c3_models_images_nonempty_or_absent repoBare none ["cad/arm.stl"] 0
  refine ⟨?_, h.2.2.1⟩
  apply h.1
  rw [models_mem_cliEntryFields]
  exact ⟨["cad/arm.stl"], by rw [cliAutoEntry_models]; decide, rfl⟩

/-- C4: the pre-format sort of both variants is a stable two-level ordering.
For every input list: the output is a permutation of the input; every
featured entry precedes every non-featured entry; within a group of equal
featured flags the `dateCompleted` keys are non-increasing lexicographically
(`charListLt (key a) (key b) = false` says the key of the later entry is not
above the earlier one), which places empty and absent dates — whose key is
`""`, the lexicographic minimum — last; and for every key the entries
carrying it appear in the output exactly as they appeared in the input
(stability). -/
theorem c4_sort_is_stable_two_level_ordering :
    (∀ l : List CliEntry,
      (cliSortEntries l).Perm l ∧
      List.Pairwise (fun a b => cliFeatured b = true → cliFeatured a = true)
        (cliSortEntries l) ∧
      List.Pairwise (fun a b => cliFeatured a = cliFeatured b →
        charListLt (cliDateKey a).data (cliDateKey b).data = false)
        (cliSortEntries l) ∧
      ∀ (fr : Bool) (d : String),
        (cliSortEntries l).filter
            (fun e => decide (cliFeatured e = fr) && decide (cliDateKey e = d))
          = l.filter
            (fun e => decide (cliFeatured e = fr) && decide (cliDateKey e = d))) ∧
    (∀ l : List WebEntry,
      (webSortEntries l).Perm l ∧
      List.Pairwise (fun a b => webFeatured b = true → webFeatured a = true)
        (webSortEntries l) ∧
      List.Pairwise (fun a b => webFeatured a = webFeatured b →
        charListLt (webDateKey a).data (webDateKey b).data = false)
        (webSortEntries l) ∧
      ∀ (fr : Bool) (d : String),
        (webSortEntries l).filter
            (fun e => decide (webFeatured e = fr) && decide (webDateKey e = d))
          = l.filter
            (fun e => decide (webFeatured e = fr) && decide (webDateKey e = d))) := by
  constructor
  · intro l
    exact ⟨jsStableSort_perm cliFeatured cliDateKey l,
      jsStableSort_featuredFirst cliFeatured cliDateKey l,
      jsStableSort_datesDesc cliFeatured cliDateKey l,
      fun fr d => jsStableSort_stableKey cliFeatured cliDateKey l fr d⟩
  · intro l
    exact ⟨jsStableSort_perm webFeatured webDateKey l,
      jsStableSort_featuredFirst webFeatured webDateKey l,
      jsStableSort_datesDesc webFeatured webDateKey l,
      fun fr d => jsStableSort_stableKey webFeatured webDateKey l fr d⟩

/-- A featured January 2023 entry. -/
def featEntry : CliEntry :=
  { name := "F", dateCompleted := some "2023-01", featured := some true, github := "g1" }

/-- A non-featured March 2024 entry. -/
def laterEntry : CliEntry :=
  { name := "N", dateCompleted := some "2024-03", github := "g2" }

/-- C4 witness: the stability equation evaluated on a concrete two-entry
list. -/
theorem c4_witness :
    (cliSortEntries [laterEntry, featEntry]).filter
        (fun e => decide (cliFeatured e = true) && decide (cliDateKey e = "2023-01"))
      = [featEntry] := by
  rw [(c4_sort_is_stable_two_level_ordering.1 [laterEntry, featEntry]).2.2.2 true "2023-01"]
  decide

/-- C5 counterexample: with the valid override `{"name": "X"}` (no
`dateCompleted`) and a last push in March 2024, the CLI merge leaves
`dateCompleted` absent instead of the claimed `"2024-03"` default. -/
theorem c5_counterexample_cli_override_date_not_defaulted :
    validateConfig nameOnlyDoc = .ok { name := "X" } ∧
    toYearMonth repoBare.pushedAt = "2024-03" ∧
    (cliProcessRepo repoBare (some nameOnlyDoc) none [] 0).dateCompleted = none ∧
    (cliProcessRepo repoBare (some nameOnlyDoc) none [] 0).dateCompleted ≠ some "2024-03" := by
  refine ⟨by decide, by decide, by decide, by decide⟩

/-- C5 (amended): when a valid override leaves `dateCompleted` unset, the web
merge and the CLI auto-detect path default it to the `YYYY-MM` of the last
push, but the CLI override path leaves the field absent. -/
theorem c5_date_completed_default :
    ∀ (repo : RepoInfo) (j : Json) (cfg : PortfolioConfig) (rr : Option String)
      (tr : List String) (t : Int),
      validateConfig j = .ok cfg → cfg.dateCompleted = none →
      ((cliProcessRepo repo (some j) rr tr t).dateCompleted = none ∧
       (webConfigEntry repo cfg t).dateCompleted = some (toYearMonth repo.pushedAt) ∧
       (cliProcessRepo repo none rr tr t).dateCompleted = some (toYearMonth repo.pushedAt)) := by
  intro repo j cfg rr tr t hv hd
  have hp : cliProcessRepo repo (some j) rr tr t = cliConfigEntry repo cfg t := by
    simp only [cliProcessRepo, hv]
  refine ⟨?_, ?_, ?_⟩
  · rw [hp]
    simp [cliConfigEntry, hd]
  · simp [webConfigEntry, hd, jsStrOr]
  · exact cliAutoEntry_dateCompleted repo rr tr t

/-- C5 witness: the default at a concrete March 2024 repository. -/
theorem c5_witness :
    (cliProcessRepo repoBare (some nameOnlyDoc) none [] 0).dateCompleted = none ∧
    (webConfigEntry repoBare { name := "X" } 0).dateCompleted = some "2024-03" := by
  have h := c5_date_completed_default repoBare nameOnlyDoc { name := "X" } none [] 0
    (by decide) rfl
  refine ⟨h.1, ?_⟩
  rw [h.2.1]
  decide

/-- C6 counterexample: the literal document `{"dateCompleted": "2024/03"}`
has no `name`, so the validator reports two errors — the missing required
`name` and the date format — not exactly one. -/
theorem c6_counterexample_two_errors :
    validateConfig badDateDoc =
      .err ["name: Required", "dateCompleted: Must be YYYY-MM format"] ∧
    (["name: Required", "dateCompleted: Must be YYYY-MM format"] : List String).length = 2 := by
  exact ⟨by decide, rfl⟩

/-- C6 (amended): for an otherwise-valid document with the wrong separator,
`{"name": "X", "dateCompleted": "2024/03"}`, the validator reports exactly
one error, which names the `dateCompleted` field and the `YYYY-MM` format
requirement; the CLI merge engine then ignores the invalid override and
produces the full auto-detected entry, whose `dateCompleted` is the
auto-detected `"2024-03"`. -/
theorem c6_single_error_and_fallback :
    validateConfig namedBadDateDoc = .err ["dateCompleted: Must be YYYY-MM format"] ∧
    cliProcessRepo repoBare (some namedBadDateDoc) none [] 0
      = cliProcessRepo repoBare none none [] 0 ∧
    (cliProcessRepo repoBare (some namedBadDateDoc) none [] 0).dateCompleted
      = some "2024-03" := by
  refine ⟨by decide, by decide, by decide⟩

/-- C7 counterexample: on the spec scenario README, the inline extractor of
the CLI `processRepo` (the cited generate.ts code) does not skip the
`![badge](url)` line (it only skips `[![` prefixes) and does not stop at the
blank line after the paragraph, so with no repository description it yields
the badge-polluted three-line join for both fields — not the claimed
values. -/
theorem c7_counterexample_remote_inline_extractor :
    (cliProcessRepo repoBare none (some readmeSample) [] 0).description =
      some "![badge](url) This project does X. It also does Y. More text." ∧
    (cliProcessRepo repoBare none (some readmeSample) [] 0).shortDescription =
      some "![badge](url) This project does X. It also does Y. More text." ∧
    (cliProcessRepo repoBare none (some readmeSample) [] 0).description ≠
      some "This project does X. It also does Y." := by
  refine ⟨by decide, by decide, by decide⟩

/-- C7 (amended): the dedicated README extractor (readme-parser.ts) returns
exactly the claimed values on the scenario text — badges and blank lines
skipped, collection stopped at the paragraph boundary, short description cut
at the first sentence terminator — while the inline extractor of the remote
`processRepo` returns the badge-polluted join of all three prose lines for
both fields (its short-description regex finds no match because the text
starts with `!`, so it falls back to the first 120 characters). -/
theorem c7_readme_extraction :
    parseReadmeContent (some readmeSample) =
      { description := some "This project does X. It also does Y.",
        shortDescription := some "This project does X." } ∧
    (cliProcessRepo repoBare none (some readmeSample) [] 0).description =
      some "![badge](url) This project does X. It also does Y. More text." ∧
    (cliProcessRepo repoBare none (some readmeSample) [] 0).shortDescription =
      some "![badge](url) This project does X. It also does Y. More text." := by
  refine ⟨by decide, by decide, by decide⟩

/-- C8 counterexample: the uppercase-extension model `cad/ARM.STL` matches
the model-extension set case-insensitively (its lower-cased extension is
`.stl`), and the CLI scanner classifies it as a model, but the web variant's
case-sensitive `endsWith` filter misses it — so "classified as a model iff
the extension matches case-insensitively" fails on the web variant. -/
theorem c8_counterexample_web_case_sensitive_extensions :
    extAfterLastDot "cad/ARM.STL" = ".stl" ∧
    memB ".stl" MODEL_EXTS = true ∧
    webFindModels ["cad/ARM.STL"] = [] ∧
    (findAssetsInTree ["cad/ARM.STL"]).models = ["cad/ARM.STL"] := by
  refine ⟨by decide, by decide, by decide, by decide⟩

/-- C8 (amended): in the CLI scanner a path is a model iff its lower-cased
last-dot extension is in the model set (regardless of directory), and an
image iff its lower-cased extension is in the image set and the path starts
with one of `docs/`, `assets/`, `images/`, `screenshots/`, `media/`; the
claimed concrete listing behaves as stated in the CLI and web variants, and
the local walker additionally accepts `public/` for images.  (The web
variant matches extensions as case-sensitive suffixes; see the
counterexample.) -/
theorem c8_asset_classification :
    (∀ (files : List String) (f : String),
      f ∈ (findAssetsInTree files).models ↔ f ∈ files ∧ isModelPath f = true) ∧
    (∀ (files : List String) (f : String),
      f ∈ (findAssetsInTree files).images ↔ f ∈ files ∧ isImagePath f = true) ∧
    findAssetsInTree ["docs/photo.png", "src/icon.png", "cad/arm.stl"]
      = ⟨["cad/arm.stl"], ["docs/photo.png"]⟩ ∧
    webFindModels ["docs/photo.png", "src/icon.png", "cad/arm.stl"] = ["cad/arm.stl"] ∧
    webFindImages ["docs/photo.png", "src/icon.png", "cad/arm.stl"] = ["docs/photo.png"] ∧
    detectAssets [.dir "docs" [.file "photo.png"], .dir "src" [.file "icon.png"],
        .dir "cad" [.file "arm.stl"], .dir "public" [.file "shot.png"]]
      = { models := ["cad/arm.stl"], images := ["docs/photo.png", "public/shot.png"],
          thumbnail := some "docs/photo.png" } := by
  refine ⟨findAssetsInTree_models_mem, findAssetsInTree_images_mem,
    by decide, by decide, by decide, ?_⟩
  simp only [detectAssets, walkDir]
  decide

/-- C8 witness: the classification characterization applied to the concrete
listing. -/
theorem c8_witness :
    "cad/arm.stl"
      ∈ (findAssetsInTree ["docs/photo.png", "src/icon.png", "cad/arm.stl"]).models := by
  exact (c8_asset_classification.1 ["docs/photo.png", "src/icon.png", "cad/arm.stl"]
    "cad/arm.stl").mpr ⟨by decide, by decide⟩

/-- C9 counterexample: with a previous override that sets only `name`, the
freshly detected `status`, `dateCompleted` and `links` are available, yet
`update` leaves all three absent — it does not refresh every field that was
absent before. -/
theorem c9_counterexample_absent_fields_not_refreshed :
    (cliUpdate { name := "X" } techSample assetsSample {} metaSample).status = none ∧
    metaSample.status = some "Completed" ∧
    (cliUpdate { name := "X" } techSample assetsSample {} metaSample).dateCompleted = none ∧
    metaSample.dateCompleted = some "2024-01" ∧
    (cliUpdate { name := "X" } techSample assetsSample {} metaSample).links = none ∧
    metaSample.links = some { liveDemo := some "https://robo.dev" } := by
  refine ⟨by decide, by decide, by decide, by decide, by decide, by decide⟩

/-- C9 (amended): `update` preserves `name`, `status`, `dateCompleted`,
`links`, `media`, `featured` and `exclude` unconditionally; always refreshes
`models` and `images` to the current scan; preserves a previously set
`technologies` only when it is non-empty (an empty list is treated as unset),
and preserves `category`/`shortDescription`/`description`/`thumbnail` when
previously set to a non-empty value; among absent fields it refreshes only
`technologies`, `category`, `shortDescription`, `description` and
`thumbnail` — never `status`, `dateCompleted` or `links`. -/
theorem c9_update_field_behaviour :
    ∀ (ex : PortfolioConfig) (tech : TechResult) (assets : AssetResult)
      (rd : ReadmeResult) (meta : MetadataResult),
      (cliUpdate ex tech assets rd meta).name = ex.name ∧
      (cliUpdate ex tech assets rd meta).status = ex.status ∧
      (cliUpdate ex tech assets rd meta).dateCompleted = ex.dateCompleted ∧
      (cliUpdate ex tech assets rd meta).links = ex.links ∧
      (cliUpdate ex tech assets rd meta).media = ex.media ∧
      (cliUpdate ex tech assets rd meta).featured = ex.featured ∧
      (cliUpdate ex tech assets rd meta).exclude = ex.exclude ∧
      (cliUpdate ex tech assets rd meta).models
        = (if assets.models.isEmpty then none else some assets.models) ∧
      (cliUpdate ex tech assets rd meta).images
        = (if assets.images.isEmpty then none else some assets.images) ∧
      (∀ ts, ex.technologies = some ts → ts ≠ [] →
        (cliUpdate ex tech assets rd meta).technologies = some ts) ∧
      (ex.technologies = none →
        (cliUpdate ex tech assets rd meta).technologies
          = (if tech.technologies.isEmpty then none else some tech.technologies)) ∧
      (∀ c, ex.category = some c → c ≠ "" →
        (cliUpdate ex tech assets rd meta).category = some c) ∧
      (ex.category = none →
        (cliUpdate ex tech assets rd meta).category = some tech.category) ∧
      (∀ v, ex.shortDescription = some v → v ≠ "" →
        (cliUpdate ex tech assets rd meta).shortDescription = some v) ∧
      (ex.shortDescription = none →
        (cliUpdate ex tech assets rd meta).shortDescription
          = jsOrOptStr rd.shortDescription meta.shortDescription) ∧
      (∀ v, ex.description = some v → v ≠ "" →
        (cliUpdate ex tech assets rd meta).description = some v) ∧
      (ex.description = none →
        (cliUpdate ex tech assets rd meta).description
          = jsOrOptStr rd.description meta.description) ∧
      (∀ v, ex.thumbnail = some v → v ≠ "" →
        (cliUpdate ex tech assets rd meta).thumbnail = some v) ∧
      (ex.thumbnail = none →
        (cliUpdate ex tech assets rd meta).thumbnail = assets.thumbnail) := by
  intro ex tech assets rd meta
  rw [cliUpdate_eq]
  refine ⟨rfl, rfl, rfl, rfl, rfl, rfl, rfl, rfl, rfl, ?_, ?_, ?_, ?_, ?_, ?_, ?_, ?_, ?_, ?_⟩
  · intro ts hts hne
    simp [hts, hne]
  · intro h
    simp [h]
  · intro c h hne
    simp [jsStrFalsy, jsStrTruthy, h, hne]
  · intro h
    simp [jsStrFalsy, jsStrTruthy, h]
  · intro v h hne
    simp [jsStrFalsy, jsStrTruthy, h, hne]
  · intro h
    simp [jsStrFalsy, jsStrTruthy, h]
  · intro v h hne
    simp [jsStrFalsy, jsStrTruthy, h, hne]
  · intro h
    simp [jsStrFalsy, jsStrTruthy, h]
  · intro v h hne
    simp [jsStrFalsy, jsStrTruthy, h, hne]
  · intro h
    simp [jsStrFalsy, jsStrTruthy, h]

/-- C9 witness: a previous override with manual values keeps them, while
`models` is refreshed from the current scan. -/
theorem c9_witness :
    (cliUpdate prevCfg techSample assetsSample {} metaSample).category = some "Robotics" ∧
    (cliUpdate prevCfg techSample assetsSample {} metaSample).technologies = some ["A"] ∧
    (cliUpdate prevCfg techSample assetsSample {} metaSample).status = some "In Progress" ∧
    (cliUpdate prevCfg techSample assetsSample {} metaSample).models = some ["cad/arm.stl"] := by
  obtain ⟨h1, h2, h3, h4, h5, h6, h7, h8, h9, h10, h11, h12, h13, h14, h15, h16, h17,
    h18, h19⟩ := c9_update_field_behaviour prevCfg techSample assetsSample {} metaSample
  refine ⟨h12 "Robotics" rfl (by decide), h10 ["A"] rfl (by decide), ?_, ?_⟩
  · rw [h2]
    decide
  · rw [h8]
    decide

/-- C10: the status heuristics of all three variants only ever return
`"Archived"` or `"Completed"` — never `"In Progress"`, which can therefore
enter an entry only through a manual override — and a repository with no
discoverable commit date is reported `"Completed"` by the local detector. -/
theorem c10_inferred_status_never_in_progress :
    (∀ (repo : RepoInfo) (t : Int),
      inferStatus repo t = "Archived" ∨ inferStatus repo t = "Completed") ∧
    (∀ (repo : RepoInfo) (t : Int),
      webInferStatus repo t = "Archived" ∨ webInferStatus repo t = "Completed") ∧
    (∀ (d : Option JSDate) (t : Int),
      metadataInferStatus d t = "Archived" ∨ metadataInferStatus d t = "Completed") ∧
    (∀ t : Int, metadataInferStatus none t = "Completed") := by
  refine ⟨?_, ?_, ?_, fun t => rfl⟩
  · intro repo t
    unfold inferStatus
    split_ifs with h
    · exact Or.inl rfl
    · cases repo.pushedAt with
      | none => exact Or.inr rfl
      | some d =>
        rcases lt_or_ge d.epochMs t with hd | hd
        · exact Or.inl (if_pos hd)
        · exact Or.inr (if_neg (not_lt.mpr hd))
  · intro repo t
    unfold webInferStatus
    split_ifs with h
    · exact Or.inl rfl
    · cases repo.pushedAt with
      | none => exact Or.inr rfl
      | some d =>
        rcases lt_or_ge d.epochMs t with hd | hd
        · exact Or.inl (if_pos hd)
        · exact Or.inr (if_neg (not_lt.mpr hd))
  · intro d t
    cases d with
    | none => exact Or.inr rfl
    | some d =>
      unfold metadataInferStatus
      rcases lt_or_ge d.epochMs t with hd | hd
      · exact Or.inl (if_pos hd)
      · exact Or.inr (if_neg (not_lt.mpr hd))

end PortfolioSync
